import Mathlib

/-!
# ThereminFrequencyAnalyzer: shallow embedding and verified properties

The embedding follows the C sources `ADC.c`, `Wave.c`, `DMA.c`, `Tsi.c` and
`Theremin_FGEN.c` (`UITask`).

* Machine integers are natural numbers (or integers for signed values) with an
  explicit reduction at every place where the C type is narrower than the
  mathematical result (`u8`, `u16`, `u32`, `s32`).
* Operations that are undefined in C (division by zero, a shift by the word
  width) make the embedded function return `none`.
* The floating-point FFT, the magnitude computation and the peak search are
  library code; the peak index `maxIndex` is an input of the ADC cycle.  For
  the masking of the spectrum the magnitudes are abstracted to natural numbers
  and the peak search is the index of the first maximum.
* uC/OS semaphores are counters, a mutex is a flag; every OS call is taken to
  return `OS_ERR_NONE` (otherwise the code spins in its error trap).
-/

namespace Theremin

/-! ## Machine integers -/

/-- Reduction to an unsigned 8-bit value (`INT8U`). -/
def u8 (x : Nat) : Nat := x % 256

/-- Reduction to an unsigned 16-bit value (`INT16U`). -/
def u16 (x : Nat) : Nat := x % 65536

/-- Reduction to an unsigned 32-bit value (`INT32U`). -/
def u32 (x : Nat) : Nat := x % 4294967296

/-! ## ADC.c -/

/-- Rate in Hz that the ADC samples at (`#define SAMPLE_RATE 44100`). -/
def SAMPLE_RATE : Nat := 44100

/-- Number of entries of the interleaved input buffer (`#define SAMPLES 2048`). -/
def SAMPLES : Nat := 2048

/-- Number of frequency estimates that are averaged (`#define FREQ_AVG_SIZE 20`). -/
def FREQ_AVG_SIZE : Nat := 20

/-- Offset error of the measurement (`#define OFFSET_ERR 0`). -/
def OFFSET_ERR : Nat := 0

/-- Gain error of the measurement (`#define GAIN_ERR (30 + OFFSET_ERR)`). -/
def GAIN_ERR : Nat := 30 + OFFSET_ERR

/-- The note structure of `ADC.h`: label (a C string), octave (`INT8U`) and
frequency (`INT32U`). -/
structure NOTE where
  note : String
  oct : Nat
  freq : Nat
deriving DecidableEq, Repr

/-- The character a C string pointer dereferences to (`*s`): the first
character, or the terminating NUL of the empty string. -/
def firstChar (s : String) : Char := s.data.headD (Char.ofNat 0)

/-- The raw frequency estimate of `ADCTask`,
`SAMPLE_RATE*10000/(FFT_SIZE*10000/maxIndex)`, where `FFT_SIZE` is the textual
macro `SAMPLES/2`, so the inner term reads `SAMPLES/2*10000/maxIndex`.
Both divisions are unsigned 32-bit divisions; a zero divisor is undefined. -/
def freqEstimate (maxIndex : Nat) : Option Nat :=
  if maxIndex = 0 then none
  else
    let d := u32 (SAMPLES / 2 * 10000) / maxIndex
    if d = 0 then none else some (u32 (SAMPLE_RATE * 10000) / d)

/-- The averaging loop of `ADCTask`: `noteOut.freq` starts at 0, accumulates
`adcFreq[j]` for `j = 0 .. FREQ_AVG_SIZE-1` in unsigned 32-bit arithmetic and is
then divided by `FREQ_AVG_SIZE`. -/
def averageFreq (adcFreq : List Nat) : Nat :=
  (List.range FREQ_AVG_SIZE).foldl (fun acc j => u32 (acc + adcFreq.getD j 0)) 0
    / FREQ_AVG_SIZE

/-- The offset and gain correction of `ADCTask`:
`freq = freq - OFFSET_ERR; freq = (freq*20000)/(20000 + GAIN_ERR - OFFSET_ERR)`
in unsigned 32-bit arithmetic. -/
def correctFreq (freq : Nat) : Nat :=
  let f1 := u32 (freq + 4294967296 - OFFSET_ERR)
  u32 (f1 * 20000) / (20000 + GAIN_ERR - OFFSET_ERR)

/-- The octave search `while(((freq*100)/(1<<n)) > 3187){ n++; }` on the
already reduced product `x = freq*100`.  The shift `1<<n` of a signed 32-bit
one is defined for `n ≤ 30`; the fuel counts the remaining defined shifts, and
`none` means the loop reached an undefined shift. -/
def octaveLoop (x : Nat) : Nat → Nat → Option Nat
  | 0, _ => none
  | fuel + 1, n => if x / (1 <<< n) > 3187 then octaveLoop x fuel (n + 1) else some n

/-- The octave search of `ADCTask`, entered with `n = 0`. -/
def octaveSearch (freq : Nat) : Option Nat :=
  octaveLoop (u32 (freq * 100)) 31 0

/-- The frequency folded into octave 0, `dummy_freq = (freq*100)/(1<<oct)`,
stored in an `INT16U`. -/
def dummyFreq (freq oct : Nat) : Nat :=
  u16 (u32 (freq * 100) / (1 <<< oct))

/-- The `if`/`else if` chain of `ADCTask` that assigns `noteOut.note`; the final
`else{}` leaves the label as it was. -/
def noteLabel (dummy_freq : Nat) (old : String) : String :=
  if dummy_freq < 1683 then "C"
  else if dummy_freq ≥ 1638 ∧ dummy_freq < 1783 then "C#"
  else if dummy_freq ≥ 1783 ∧ dummy_freq < 1890 then "D"
  else if dummy_freq ≥ 1890 ∧ dummy_freq < 2002 then "D#"
  else if dummy_freq ≥ 2002 ∧ dummy_freq < 2121 then "E"
  else if dummy_freq ≥ 2121 ∧ dummy_freq < 2247 then "F"
  else if dummy_freq ≥ 2247 ∧ dummy_freq < 2381 then "F#"
  else if dummy_freq ≥ 2381 ∧ dummy_freq < 2523 then "G"
  else if dummy_freq ≥ 2523 ∧ dummy_freq < 2673 then "G#"
  else if dummy_freq ≥ 2673 ∧ dummy_freq < 2832 then "A"
  else if dummy_freq ≥ 2673 ∧ dummy_freq < 3000 then "A#"
  else if dummy_freq ≥ 3000 ∧ dummy_freq ≤ 3178 then "B"
  else old

/-- The classification step of `ADCTask` (octave search, fold, label) for a
corrected frequency `freq` already stored in `noteOut.freq`. -/
def classify (freq : Nat) (noteOut : NOTE) : Option NOTE :=
  match octaveSearch freq with
  | none => none
  | some n =>
    let oct := u8 n
    some { note := noteLabel (dummyFreq freq oct) noteOut.note, oct := oct, freq := freq }

/-- The body of `if(conv_cnt == FREQ_AVG_SIZE)`: average, correct, classify. -/
def recompute (adcFreq : List Nat) (noteOut : NOTE) : Option NOTE :=
  classify (correctFreq (averageFreq adcFreq)) noteOut

/-- The change test of `ADCTask`:
`(*noteOut.note != *note_prev.note) || (noteOut.oct != note_prev.oct)
 || (noteOut.freq != note_prev.freq)`. -/
def noteChanged (noteOut note_prev : NOTE) : Bool :=
  firstChar noteOut.note != firstChar note_prev.note
    || noteOut.oct != note_prev.oct
    || noteOut.freq != note_prev.freq

/-- The variables of the ADC module that `ADCTask` works on: the estimate
buffer, the write index, the published note, the note of the previous cycle
and the count of the semaphore `NoteChgFlag`. -/
structure ADCState where
  adcFreq : List Nat
  conv_cnt : Nat
  noteOut : NOTE
  note_prev : NOTE
  NoteChgFlag : Nat
deriving DecidableEq, Repr

/-- The state left by `ADCInit` when `ADCTask` starts: a zeroed estimate buffer,
the note `{"X", 255, 0}`, `note_prev = noteOut` and an empty semaphore. -/
def ADCInit : ADCState :=
  { adcFreq := List.replicate FREQ_AVG_SIZE 0
    conv_cnt := 0
    noteOut := { note := "X", oct := 255, freq := 0 }
    note_prev := { note := "X", oct := 255, freq := 0 }
    NoteChgFlag := 0 }

/-- One pass of the `while(1)` loop of `ADCTask`, from the peak index found by
the spectral analysis to the update of `note_prev`. -/
def ADCTask (s : ADCState) (maxIndex : Nat) : Option ADCState :=
  match freqEstimate maxIndex with
  | none => none
  | some est =>
    let adcFreq := s.adcFreq.set s.conv_cnt est
    let conv_cnt := u8 (s.conv_cnt + 1)
    let next : Option (Nat × NOTE) :=
      if conv_cnt = FREQ_AVG_SIZE then (recompute adcFreq s.noteOut).map (fun r => (0, r))
      else some (conv_cnt, s.noteOut)
    match next with
    | none => none
    | some (cnt, noteOut) =>
      some { adcFreq := adcFreq
             conv_cnt := cnt
             noteOut := noteOut
             note_prev := noteOut
             NoteChgFlag :=
               if noteChanged noteOut s.note_prev then s.NoteChgFlag + 1 else s.NoteChgFlag }

/-- The analysis cycles of `ADCTask` for a sequence of peak indices, starting
from a given state. -/
def runADCFrom (s : ADCState) : List Nat → Option ADCState
  | [] => some s
  | k :: ks =>
    match ADCTask s k with
    | none => none
    | some t => runADCFrom t ks

/-- The analysis cycles of `ADCTask` after `ADCInit`. -/
def runADC (ks : List Nat) : Option ADCState := runADCFrom ADCInit ks

/-- The calibration formula in the words of the specification:
`(mean − offsetErr) * 20000 / (20000 + gainErr − offsetErr)` over the natural
numbers, with truncating division. -/
def specCorrected (mean : Nat) : Nat :=
  (mean - OFFSET_ERR) * 20000 / (20000 + GAIN_ERR - OFFSET_ERR)

/-! ## DMA.c -/

/-- Number of blocks of the ping-pong buffer (`#define WAVE_NUM_BLOCKS 2`). -/
def WAVE_NUM_BLOCKS : Nat := 2

/-- Number of samples in each block (`#define WAVE_SAMPLES_PER_BLOCK 60`). -/
def WAVE_SAMPLES_PER_BLOCK : Nat := 60

/-- The record `dmaBlockRdy`: the count of the semaphore `flag` and the index of
the block that the transfer engine is not using. -/
structure DMA_RDY where
  flag : Nat
  index : Nat
deriving DecidableEq, Repr

/-- The software state left by `DMAInit`: semaphore created with count 0 and
`dmaBlockRdy.index = 1`. -/
def DMAInit : DMA_RDY := { flag := 0, index := 1 }

/-- The completion interrupt handler: toggles `dmaBlockRdy.index` with the
`if(index == 1) index = 0; else index = 1;` of the source and posts the flag. -/
def DMA0_DMA16_IRQHandler (d : DMA_RDY) : DMA_RDY :=
  { flag := d.flag + 1, index := if d.index = 1 then 0 else 1 }

/-- The call `DMAPend(&buffer_layer)`: blocks (`none`) while the flag is empty,
otherwise takes one count and delivers the current `dmaBlockRdy.index`. -/
def DMAPend (d : DMA_RDY) : Option (DMA_RDY × Nat) :=
  if d.flag = 0 then none else some ({ d with flag := d.flag - 1 }, d.index)

/-- The transfer engine as `DMAInit` configures it, together with the software
record: `saddr` is the offset (in samples) of the next sample the engine reads
from `WaveOut`.  The major loop has `WAVE_NUM_BLOCKS*WAVE_SAMPLES_PER_BLOCK`
iterations, the source address goes back to the start after the major loop
(`DMA_SLAST`), and an interrupt is raised at the half (`INTHALF`) and at the end
(`INTMAJOR`) of the major loop. -/
structure DMASystem where
  rdy : DMA_RDY
  saddr : Nat
deriving DecidableEq, Repr

/-- The system after `DMAInit`: the engine starts at the first sample of
block 0. -/
def dmaStart : DMASystem := { rdy := DMAInit, saddr := 0 }

/-- One sample transfer of the engine, with the interrupt handler run at the
half and at the end of the major loop. -/
def dmaTransfer (s : DMASystem) : DMASystem :=
  let next := s.saddr + 1
  if next = WAVE_SAMPLES_PER_BLOCK then
    { rdy := DMA0_DMA16_IRQHandler s.rdy, saddr := next }
  else if next = WAVE_NUM_BLOCKS * WAVE_SAMPLES_PER_BLOCK then
    { rdy := DMA0_DMA16_IRQHandler s.rdy, saddr := 0 }
  else { s with saddr := next }

/-- The system after `t` sample transfers. -/
def dmaRun : Nat → DMASystem
  | 0 => dmaStart
  | t + 1 => dmaTransfer (dmaRun t)

/-- The block the engine is draining: the block that holds the next sample
it reads. -/
def engineHalf (s : DMASystem) : Nat := s.saddr / WAVE_SAMPLES_PER_BLOCK

/-! ## Wave.c -/

/-- `WaveStruct.type` value for a sine wave (`#define SINE 1`). -/
def SINE : Nat := 1

/-- `WaveStruct.type` value for a triangle wave (`#define TRIANGLE 2`). -/
def TRIANGLE : Nat := 2

/-- DC offset of the output (`#define DC_OFFSET 680`). -/
def DC_OFFSET : Nat := 680

/-- Largest AC amplitude (`#define AC_MAX 570`). -/
def AC_MAX : Nat := 570

/-- Maximum amplitude step (`#define MAX_STEP 20`). -/
def MAX_STEP : Nat := 20

/-- Minimum amplitude step (`#define MIN_STEP 0`). -/
def MIN_STEP : Nat := 0

/-- Output sample rate (`#define FS 48000`). -/
def FS : Nat := 48000

/-- Q31 value for the first half of a wave period (`#define HALF_WAVE`). -/
def HALF_WAVE : Int := 1073527076

/-- Q31 value for the second half of a wave period (`#define FULL_WAVE`). -/
def FULL_WAVE : Int := 2147268899

/-- Size of one layer of the ping-pong buffer (`#define BUFFER_SIZE 60`). -/
def BUFFER_SIZE : Nat := 60

/-- The waveform record of `Wave.h`: type and amplitude (`INT8U`), frequency
(`INT16U`). -/
structure WAVE_T where
  type : Nat
  amp : Nat
  freq : Nat
deriving DecidableEq, Repr

/-- The two states of the triangle generator. -/
inductive TRI_T where
  | POS_WAVE
  | NEG_WAVE
deriving DecidableEq, Repr

/-- Reduction to a signed 32-bit value (`INT32S`, `q31_t`), two's complement. -/
def s32 (x : Int) : Int := (x + 2147483648) % 4294967296 - 2147483648

/-- The module variables shared between the setters, `WaveGet` and `WaveTask`:
the record `WaveStruct`, whether the mutex `WaveStructMutexKey` is held, and the
count of the semaphore `WaveChgFlag`. -/
structure WaveShared where
  WaveStruct : WAVE_T
  WaveStructMutexKey : Bool
  WaveChgFlag : Nat
deriving DecidableEq, Repr

/-- The call `OSMutexPend(&WaveStructMutexKey, ...)` at the moment it returns:
the caller holds the mutex. -/
def OSMutexPend (m : WaveShared) : WaveShared := { m with WaveStructMutexKey := true }

/-- The call `OSMutexPost(&WaveStructMutexKey, ...)`: the mutex is released. -/
def OSMutexPost (m : WaveShared) : WaveShared := { m with WaveStructMutexKey := false }

/-- The call `OSSemPost(&WaveChgFlag, OS_OPT_POST_1, ...)`: one more count. -/
def OSSemPost (m : WaveShared) : WaveShared := { m with WaveChgFlag := m.WaveChgFlag + 1 }

/-- The setter `AmpSet(INT8U *lamp)`; the argument is the value pointed to. -/
def AmpSet (m : WaveShared) (lamp : Nat) : WaveShared :=
  let m1 := OSMutexPend m
  let m2 := { m1 with WaveStruct := { m1.WaveStruct with amp := lamp } }
  let m3 := OSMutexPost m2
  OSSemPost m3

/-- The setter `FreqSet(INT16U *lfreq)`; the argument is the value pointed to. -/
def FreqSet (m : WaveShared) (lfreq : Nat) : WaveShared :=
  let m1 := OSMutexPend m
  let m2 := { m1 with WaveStruct := { m1.WaveStruct with freq := lfreq } }
  let m3 := OSMutexPost m2
  OSSemPost m3

/-- The setter `TypeSet(INT8U *ltype)`; the argument is the value pointed to.
The source has no `OSSemPost` in this function. -/
def TypeSet (m : WaveShared) (ltype : Nat) : WaveShared :=
  let m1 := OSMutexPend m
  let m2 := { m1 with WaveStruct := { m1.WaveStruct with type := ltype } }
  OSMutexPost m2

/-- The getter `WaveGet(INT8U *lamp, INT16U *lfreq)`: blocks (`none`) while
`WaveChgFlag` is empty, otherwise takes one count and delivers amplitude and
frequency. -/
def WaveGet (m : WaveShared) : Option (WaveShared × Nat × Nat) :=
  if m.WaveChgFlag = 0 then none
  else some ({ m with WaveChgFlag := m.WaveChgFlag - 1 }, m.WaveStruct.amp, m.WaveStruct.freq)

/-- The variables of `WaveTask` that live across fill cycles: the ping-pong
buffer `WaveOut[layer][index]`, the phase `radians`, the triangle state and the
flag `changeState`. -/
structure WaveTaskState where
  WaveOut : Nat → Nat → Nat
  radians : Int
  Wave_State : TRI_T
  changeState : Nat

/-- The assignment `WaveOut[layer][index] = v`. -/
def writeSample (w : Nat → Nat → Nat) (layer index v : Nat) : Nat → Nat → Nat :=
  fun l i => if l = layer ∧ i = index then v else w l i

/-- The phase increment `(((INT32S)(v)<<17)/FS)<<14` in signed 32-bit
arithmetic with truncating division; `v` is `freq` for the sine wave and
`2*freq` for the triangle wave. -/
def phaseInc (v : Nat) : Int :=
  s32 (Int.tdiv (s32 ((v : Int) * 131072)) (FS : Int) * 16384)

/-- The fold of the phase:
`if((radians & 0x80000000) == 0x80000000){ radians = ~radians;
 radians = (2147268900) - radians; }`. -/
def foldPhase (radians : Int) : Int :=
  if radians < 0 then s32 (2147268900 - (-radians - 1)) else radians

/-- The scaling `(volume*(val>>11))>>20` with arithmetic shifts and a signed
32-bit product. -/
def acComponent (volume : Nat) (val : Int) : Int :=
  s32 ((volume : Int) * (val / 2048)) / 1048576

/-- The store `(INT16U)(DC_OFFSET + ac_component)`. -/
def toSample (ac_component : Int) : Nat :=
  (s32 ((DC_OFFSET : Int) + ac_component) % 65536).toNat

/-- One iteration of the loop of the `SINE` case; `arm_sin_q31` is the sine
primitive of the DSP library. -/
def sineStep (arm_sin_q31 : Int → Int) (freq volume buffer_layer : Nat)
    (s : WaveTaskState) (wave_index : Nat) : WaveTaskState :=
  let radians := foldPhase (s32 (s.radians + phaseInc freq))
  let sin_val := s32 (arm_sin_q31 radians)
  let ac_component := acComponent volume sin_val
  { s with
    radians := radians
    WaveOut := writeSample s.WaveOut buffer_layer wave_index (toSample ac_component) }

/-- One iteration of the loop of the `TRIANGLE` case. -/
def triangleStep (freq volume buffer_layer : Nat)
    (s : WaveTaskState) (wave_index : Nat) : WaveTaskState :=
  let radians := foldPhase (s32 (s.radians + phaseInc (2 * freq)))
  let toggled : TRI_T :=
    if s.Wave_State = TRI_T.POS_WAVE then TRI_T.NEG_WAVE else TRI_T.POS_WAVE
  let Wave_State : TRI_T :=
    if radians ≤ HALF_WAVE then (if s.changeState = 1 then toggled else s.Wave_State)
    else s.Wave_State
  let changeState : Nat :=
    if radians ≤ HALF_WAVE then (if s.changeState = 1 then 0 else s.changeState) else 1
  let tri_val : Int := if radians ≤ HALF_WAVE then radians else s32 (FULL_WAVE - radians)
  let tri_val : Int :=
    match Wave_State with
    | TRI_T.POS_WAVE => tri_val
    | TRI_T.NEG_WAVE => -tri_val - 1
  let ac_component := acComponent volume tri_val
  { WaveOut := writeSample s.WaveOut buffer_layer wave_index (toSample ac_component)
    radians := radians
    Wave_State := Wave_State
    changeState := changeState }

/-- The waveform generator of `WaveTask` for one fill cycle: `buffer_layer` is
the index delivered by `DMAPend`, `CurrentStruct` the snapshot of `WaveStruct`. -/
def waveFill (arm_sin_q31 : Int → Int) (s : WaveTaskState) (buffer_layer : Nat)
    (CurrentStruct : WAVE_T) : WaveTaskState :=
  if CurrentStruct.amp = MIN_STEP then
    (List.range BUFFER_SIZE).foldl
      (fun st wave_index =>
        { st with WaveOut := writeSample st.WaveOut buffer_layer wave_index DC_OFFSET }) s
  else
    let volume := u16 (CurrentStruct.amp * AC_MAX / MAX_STEP)
    if CurrentStruct.type = SINE then
      (List.range BUFFER_SIZE).foldl
        (sineStep arm_sin_q31 CurrentStruct.freq volume buffer_layer) s
    else if CurrentStruct.type = TRIANGLE then
      (List.range BUFFER_SIZE).foldl
        (triangleStep CurrentStruct.freq volume buffer_layer) s
    else s

/-- One pass of the `while(1)` loop of `WaveTask`: wait for the freed layer
(`DMAPend`), copy `WaveStruct` under the mutex, fill the layer.  The result is
`none` while the task is blocked in `DMAPend`. -/
def WaveTask (arm_sin_q31 : Int → Int) (d : DMA_RDY) (m : WaveShared) (s : WaveTaskState) :
    Option (DMA_RDY × WaveShared × WaveTaskState) :=
  match DMAPend d with
  | none => none
  | some (d1, buffer_layer) =>
    let m1 := OSMutexPend m
    let CurrentStruct := m1.WaveStruct
    let m2 := OSMutexPost m1
    some (d1, m2, waveFill arm_sin_q31 s buffer_layer CurrentStruct)

/-! ## ADC.c: the consumer -/

/-- The call `NotePend(&new_note)`: blocks (`none`) while `NoteChgFlag` is
empty, otherwise takes one count and copies the current `noteOut`. -/
def NotePend (s : ADCState) : Option (ADCState × NOTE) :=
  if s.NoteChgFlag = 0 then none
  else some ({ s with NoteChgFlag := s.NoteChgFlag - 1 }, s.noteOut)

/-- The partition of the folded values `0..3178` as the specification words
it: each entry is `(lo, hi, label)` for the half-open interval `[lo, hi)`; the
last interval `B [3000,3178]` is closed and is written `[3000, 3179)`. -/
def notePartition : List (Nat × Nat × String) :=
  [ (0, 1683, "C"), (1683, 1783, "C#"), (1783, 1890, "D"), (1890, 2002, "D#"),
    (2002, 2121, "E"), (2121, 2247, "F"), (2247, 2381, "F#"), (2381, 2523, "G"),
    (2523, 2673, "G#"), (2673, 2832, "A"), (2832, 3000, "A#"), (3000, 3179, "B") ]

/-- Whether the interval of a partition entry contains `d`. -/
def inInterval (d : Nat) (p : Nat × Nat × String) : Bool :=
  decide (p.1 ≤ d) && decide (d < p.2.1)

/-- The label of the first interval of `notePartition` that contains `d`. -/
def specLabel (d : Nat) : Option String :=
  ((notePartition.filter (inInterval d)).head?).map (fun p => p.2.2)

/-- The position of a label in the order C, C#, D, ..., B (12 for any other
string). -/
def labelRank (s : String) : Nat :=
  (notePartition.map (fun p => p.2.2)).indexOf s

/-! ## Theremin_FGEN.c: UITask -/

/-- The variables of `UITask`: the module variable `Freq`, the locals `waveform`
and `newFreq`, the shared waveform module, and (as a history variable) the
arguments of all calls of `FreqSet` so far, latest first. -/
structure UIState where
  Freq : Nat
  waveform : Nat
  newFreq : Nat
  shared : WaveShared
  freqSetArgs : List Nat
deriving DecidableEq, Repr

/-- The start of `UITask`: `Freq` is initialised to 10, `waveform` to 1, then
`TypeSet(&waveform); FreqSet(&Freq);` and the first pass of the outer loop sets
`newFreq = 0`. -/
def UITask_start (m : WaveShared) : UIState :=
  { Freq := 10
    waveform := 1
    newFreq := 0
    shared := FreqSet (TypeSet m 1) 10
    freqSetArgs := [10] }

/-- One pass of the inner loop of `UITask` for the key code delivered by
`KeyPend`: `'#'` is 35, `D` is `0x14`, `A` is `0x11`, `B` is `0x12`, the digits
are 48..57.  When `'#'` commits, the inner loop ends, `FreqSet` is called and
the outer loop resets `newFreq` to 0.  The display calls are left out. -/
def UITask_key (s : UIState) (keyPress : Nat) : UIState :=
  if keyPress = 35 then
    if s.newFreq ≥ 10 then
      { s with
        Freq := s.newFreq
        shared := FreqSet s.shared s.newFreq
        freqSetArgs := s.newFreq :: s.freqSetArgs
        newFreq := 0 }
    else s
  else if keyPress = 20 then { s with newFreq := s.newFreq / 10 }
  else if keyPress = 17 then { s with waveform := 1, shared := TypeSet s.shared 1 }
  else if keyPress = 18 then { s with waveform := 2, shared := TypeSet s.shared 2 }
  else if 48 ≤ keyPress ∧ keyPress ≤ 57 then
    let keyValue := u8 (keyPress - 48)
    if ¬ (s.newFreq * 10 + keyValue > 10000) then
      { s with newFreq := u16 (u16 (s.newFreq * 10) + keyValue) }
    else s
  else s

/-- The state of `UITask` after a sequence of key codes. -/
def runUI (m : WaveShared) (keys : List Nat) : UIState :=
  keys.foldl UITask_key (UITask_start m)

/-! ## Tsi.c -/

/-- Amplitude step per touch (`#define STEP_SIZE 1`). -/
def STEP_SIZE : Nat := 1

/-- The variables of `TsiTask`: `NewVoltage.amp`, the two debounce flags, the
shared waveform module, and (as a history variable) the arguments of all calls
of `AmpSet` so far, latest first. -/
structure TsiState where
  amp : Nat
  leftBounce : Nat
  rightBounce : Nat
  shared : WaveShared
  ampSetArgs : List Nat
deriving DecidableEq, Repr

/-- The state when `TsiTask` starts: `TsiInit` sets `NewVoltage.amp = 20`, the
debounce flags start at 0. -/
def TsiInit (m : WaveShared) : TsiState :=
  { amp := 20, leftBounce := 0, rightBounce := 0, shared := m, ampSetArgs := [] }

/-- The scan of electrode 1 in `TsiTask`: `count` is the scan result
`TSI0_DATA & TSI_DATA_TSICNT_MASK`, `touchLevel` is `tsiTouchLevels[ELECTRODE1]`. -/
def TsiTask_electrode1 (touchLevel : Nat) (s : TsiState) (count : Nat) : TsiState :=
  if count > touchLevel ∧ s.amp < MAX_STEP then
    let amp := if s.leftBounce = 0 then u8 (s.amp + STEP_SIZE) else s.amp
    { s with
      amp := amp
      shared := AmpSet s.shared amp
      ampSetArgs := amp :: s.ampSetArgs
      leftBounce := 1 }
  else { s with leftBounce := 0 }

/-- The scan of electrode 2 in `TsiTask`: `count` is the scan result,
`touchLevel` is `tsiTouchLevels[ELECTRODE2]`; the decrement is an unsigned
8-bit subtraction. -/
def TsiTask_electrode2 (touchLevel : Nat) (s : TsiState) (count : Nat) : TsiState :=
  if count > touchLevel ∧ s.amp > MIN_STEP then
    let amp := if s.rightBounce = 0 then u8 (s.amp + 256 - STEP_SIZE) else s.amp
    { s with
      amp := amp
      shared := AmpSet s.shared amp
      ampSetArgs := amp :: s.ampSetArgs
      rightBounce := 1 }
  else { s with rightBounce := 0 }

/-- One pass of the `while(1)` loop of `TsiTask`: the scan of electrode 1, then
the scan of electrode 2; `counts` holds the two scan results. -/
def TsiTask (touch1 touch2 : Nat) (s : TsiState) (counts : Nat × Nat) : TsiState :=
  TsiTask_electrode2 touch2 (TsiTask_electrode1 touch1 s counts.1) counts.2

/-- The state of `TsiTask` after a sequence of passes. -/
def runTsi (touch1 touch2 : Nat) (m : WaveShared) (scans : List (Nat × Nat)) : TsiState :=
  scans.foldl (TsiTask touch1 touch2) (TsiInit m)

/-! ## Wave.c: the order of the OS calls and of the accesses to `WaveStruct` -/

/-- The OS calls and the accesses to `WaveStruct` that the functions of
`Wave.c` perform. -/
inductive WaveOp where
  | mutexPend
  | mutexPost
  | semPost
  | semPend
  | dmaPend
  | writeAmp
  | writeFreq
  | writeType
  | readStruct
  | readAmp
  | readFreq
deriving DecidableEq, Repr

/-- The statements of `AmpSet` in source order. -/
def AmpSetOps : List WaveOp :=
  [WaveOp.mutexPend, WaveOp.writeAmp, WaveOp.mutexPost, WaveOp.semPost]

/-- The statements of `FreqSet` in source order. -/
def FreqSetOps : List WaveOp :=
  [WaveOp.mutexPend, WaveOp.writeFreq, WaveOp.mutexPost, WaveOp.semPost]

/-- The statements of `TypeSet` in source order. -/
def TypeSetOps : List WaveOp :=
  [WaveOp.mutexPend, WaveOp.writeType, WaveOp.mutexPost]

/-- The statements of `WaveGet` in source order: the pend on `WaveChgFlag`, then
the two reads `*lamp = WaveStruct.amp; *lfreq = WaveStruct.freq;`. -/
def WaveGetOps : List WaveOp :=
  [WaveOp.semPend, WaveOp.readAmp, WaveOp.readFreq]

/-- The head of one pass of `WaveTask` in source order: `DMAPend`, the mutex,
the copy `CurrentStruct = WaveStruct`, the release; the fill that follows works
on the copy only. -/
def WaveTaskOps : List WaveOp :=
  [WaveOp.dmaPend, WaveOp.mutexPend, WaveOp.readStruct, WaveOp.mutexPost]

/-- Whether an operation reads or writes `WaveStruct`. -/
def WaveOp.isAccess : WaveOp → Bool
  | WaveOp.writeAmp => true
  | WaveOp.writeFreq => true
  | WaveOp.writeType => true
  | WaveOp.readStruct => true
  | WaveOp.readAmp => true
  | WaveOp.readFreq => true
  | _ => false

/-- Whether an operation is a blocking wait on a semaphore. -/
def WaveOp.isWait : WaveOp → Bool
  | WaveOp.semPend => true
  | WaveOp.dmaPend => true
  | _ => false

/-- Whether the mutex is held after an operation, given whether it was held
before. -/
def WaveOp.heldAfter (held : Bool) : WaveOp → Bool
  | WaveOp.mutexPend => true
  | WaveOp.mutexPost => false
  | _ => held

/-- Every access to `WaveStruct` in the sequence happens while the mutex is
held; `held` says whether it is held at the start. -/
def accessesGuarded : Bool → List WaveOp → Bool
  | _, [] => true
  | held, op :: rest =>
    (!op.isAccess || held) && accessesGuarded (op.heldAfter held) rest

/-- No blocking wait in the sequence happens while the mutex is held, and the
mutex is free at the end. -/
def noWaitWhileHeld : Bool → List WaveOp → Bool
  | held, [] => !held
  | held, op :: rest =>
    (!op.isWait || !held) && noWaitWhileHeld (op.heldAfter held) rest

/-- The effect of one operation on the shared module; `v` is the argument of
the setter.  A pend on the empty `WaveChgFlag` blocks (`none`); the reads and
`DMAPend` leave the module as it is. -/
def execOp (v : Nat) (m : WaveShared) : WaveOp → Option WaveShared
  | WaveOp.mutexPend => some (OSMutexPend m)
  | WaveOp.mutexPost => some (OSMutexPost m)
  | WaveOp.semPost => some (OSSemPost m)
  | WaveOp.semPend =>
    if m.WaveChgFlag = 0 then none else some { m with WaveChgFlag := m.WaveChgFlag - 1 }
  | WaveOp.writeAmp => some { m with WaveStruct := { m.WaveStruct with amp := v } }
  | WaveOp.writeFreq => some { m with WaveStruct := { m.WaveStruct with freq := v } }
  | WaveOp.writeType => some { m with WaveStruct := { m.WaveStruct with type := v } }
  | _ => some m

/-- The effect of a sequence of operations on the shared module. -/
def execOps (v : Nat) : WaveShared → List WaveOp → Option WaveShared
  | m, [] => some m
  | m, op :: rest =>
    match execOp v m op with
    | none => none
    | some m1 => execOps v m1 rest

/-! ## ADC.c: masking of the spectrum and peak search -/

/-- The masking of `ADCTask`: `Output[0] = 0;` and `Output[j] = 0` for
`j = FFT_SIZE/2 .. FFT_SIZE-1`, where `FFT_SIZE/2` is the text `SAMPLES/2/2` and
`FFT_SIZE` is `SAMPLES/2`.  The magnitudes are abstracted to natural numbers:
only their order matters for the peak search. -/
def maskSpectrum (Output : List Nat) : List Nat :=
  (List.range Output.length).map
    (fun j => if j = 0 ∨ (SAMPLES / 2 / 2 ≤ j ∧ j < SAMPLES / 2) then 0 else Output.getD j 0)

/-- The scan of the peak search over the remaining values: `i` is the index of
the next value, `best` the largest value so far and `bestIdx` its index; a
value replaces the best one only when it is strictly larger. -/
def maxLoop : List Nat → Nat → Nat → Nat → Nat
  | [], _, _, bestIdx => bestIdx
  | x :: rest, i, best, bestIdx =>
    if best < x then maxLoop rest (i + 1) x i else maxLoop rest (i + 1) best bestIdx

/-- Modelled from the spec: the peak search `arm_max_f32` of the DSP library,
which is not part of the sources; it delivers the index of the maximum
magnitude, the first one when several bins hold the maximum. -/
def arm_max_index (Output : List Nat) : Nat :=
  match Output with
  | [] => 0
  | x :: rest => maxLoop rest 1 x 0

/-- The peak index `maxIndex` that `ADCTask` uses: the peak search on the masked
spectrum. -/
def peakIndex (Output : List Nat) : Nat := arm_max_index (maskSpectrum Output)

theorem getD_replicate_slot (f j : Nat) (hj : j < FREQ_AVG_SIZE) :
    (List.replicate FREQ_AVG_SIZE f).getD j 0 = f := by
  simp [List.getD, hj]

theorem partial_sum_replicate (f : Nat) (hf : f ≤ 22050) :
    ∀ j, j ≤ FREQ_AVG_SIZE →
      (List.range j).foldl
        (fun acc i => u32 (acc + (List.replicate FREQ_AVG_SIZE f).getD i 0)) 0 = j * f := by
  intro j
  induction j with
  | zero => intro _; simp
  | succ j ih =>
    intro hj
    have hj1 : j < FREQ_AVG_SIZE := hj
    have hj2 : j < 20 := hj
    rw [List.range_succ, List.foldl_append, ih (Nat.le_of_lt hj1)]
    simp only [List.foldl_cons, List.foldl_nil, getD_replicate_slot f j hj1, u32]
    have hb : j * f ≤ 19 * 22050 := Nat.mul_le_mul (by omega) hf
    rw [Nat.succ_mul]
    apply Nat.mod_eq_of_lt
    omega

theorem averageFreq_replicate (f : Nat) (hf : f ≤ 22050) :
    averageFreq (List.replicate FREQ_AVG_SIZE f) = f := by
  unfold averageFreq
  rw [partial_sum_replicate f hf FREQ_AVG_SIZE (Nat.le_refl _)]
  simp [FREQ_AVG_SIZE]

theorem correctFreq_exact (m : Nat) (hm : m ≤ 214748) :
    correctFreq m = m * 20000 / 20030 := by
  simp only [correctFreq, u32, OFFSET_ERR, GAIN_ERR]
  have h1 : (m + 4294967296 - 0) % 4294967296 = m := by omega
  rw [h1]
  have h2 : m * 20000 % 4294967296 = m * 20000 := Nat.mod_eq_of_lt (by omega)
  rw [h2]

theorem octaveLoop_spec (x : Nat) (hx : x < 4294967296) :
    ∀ fuel n, 22 ≤ n + fuel → (∀ m, m < n → 3187 < x / 2 ^ m) →
      ∃ k, octaveLoop x fuel n = some k ∧ k ≤ 21 ∧ x / 2 ^ k ≤ 3187 ∧
        ∀ m, m < k → 3187 < x / 2 ^ m := by
  have top : ∀ n, 22 ≤ n → (∀ m, m < n → 3187 < x / 2 ^ m) → False := by
    intro n hn h
    have h21 := h 21 (by omega)
    norm_num at h21
    omega
  intro fuel
  induction fuel with
  | zero =>
    intro n hn h
    exact (top n (by omega) h).elim
  | succ fuel ih =>
    intro n hn h
    unfold octaveLoop
    rw [Nat.one_shiftLeft]
    by_cases hc : x / 2 ^ n > 3187
    · rw [if_pos hc]
      apply ih (n + 1) (by omega)
      intro m hm
      rcases Nat.lt_succ_iff_lt_or_eq.mp hm with h1 | h1
      · exact h m h1
      · rw [h1]; exact hc
    · rw [if_neg hc]
      refine ⟨n, rfl, ?_, Nat.le_of_not_gt hc, h⟩
      by_contra hn21
      exact top n (by omega) h

theorem octaveSearch_spec (freq : Nat) :
    ∃ k, octaveSearch freq = some k ∧ k ≤ 21 ∧ u32 (freq * 100) / 2 ^ k ≤ 3187 ∧
      ∀ m, m < k → 3187 < u32 (freq * 100) / 2 ^ m := by
  unfold octaveSearch
  apply octaveLoop_spec (u32 (freq * 100)) (Nat.mod_lt _ (by norm_num)) 31 0 (by omega)
  intro m hm
  omega

theorem classify_freq (freq : Nat) (noteOut : NOTE) :
    (classify freq noteOut).map NOTE.freq = some freq := by
  obtain ⟨k, hk, _⟩ := octaveSearch_spec freq
  simp only [classify, hk, Option.map_some']

/-! ## Averaging and calibration -/

/-- C1: when all 20 slots of the estimate buffer hold the same raw estimate
`f ≤ 22050`, the frequency that `ADCTask` stores after averaging and correction
is `(f - OFFSET_ERR) * 20000 / (20000 + GAIN_ERR - OFFSET_ERR) = f*20000/20030`;
every partial sum of the averaging loop equals the exact sum `j*f`, and the
exact sums and the exact product `f*20000` are below `2^32`, so no unsigned
32-bit operation wraps. -/
theorem identical_estimates_corrected (f : Nat) (hf : f ≤ 22050) (noteOut : NOTE) :
    correctFreq (averageFreq (List.replicate FREQ_AVG_SIZE f)) = specCorrected f
      ∧ specCorrected f = f * 20000 / 20030
      ∧ (recompute (List.replicate FREQ_AVG_SIZE f) noteOut).map NOTE.freq
          = some (f * 20000 / 20030)
      ∧ (∀ j, j ≤ FREQ_AVG_SIZE →
          (List.range j).foldl
            (fun acc i => u32 (acc + (List.replicate FREQ_AVG_SIZE f).getD i 0)) 0 = j * f
          ∧ j * f < 4294967296)
      ∧ OFFSET_ERR ≤ f
      ∧ (f - OFFSET_ERR) * 20000 < 4294967296 := by
  have hc : correctFreq (averageFreq (List.replicate FREQ_AVG_SIZE f)) = f * 20000 / 20030 := by
    rw [averageFreq_replicate f hf, correctFreq_exact f (by omega)]
  have hs : specCorrected f = f * 20000 / 20030 := by
    simp [specCorrected, OFFSET_ERR, GAIN_ERR]
  refine ⟨by rw [hc, hs], hs, ?_, ?_, by simp [OFFSET_ERR], by simp only [OFFSET_ERR]; omega⟩
  · unfold recompute
    rw [classify_freq, hc]
  · intro j hj
    refine ⟨partial_sum_replicate f hf j hj, ?_⟩
    have hj2 : j ≤ 20 := hj
    have hb : j * f ≤ 20 * 22050 := Nat.mul_le_mul hj2 hf
    omega

/-- Witness of C1 at the raw estimate 440. -/
theorem identical_estimates_corrected_witness :
    (440 : Nat) ≤ 22050 ∧
      correctFreq (averageFreq (List.replicate FREQ_AVG_SIZE 440)) = 439 := by
  refine ⟨by decide, ?_⟩
  have h := (identical_estimates_corrected 440 (by decide) ADCInit.noteOut).1
  rw [h]
  simp [specCorrected, OFFSET_ERR, GAIN_ERR]

/-! ## Raw frequency estimate -/

/-- C2, as stated, fails at the peak index 90: the code stores 3876 while the
truncated quotient of `44100*90/1024` is 3875. -/
theorem estimate_differs_at_90 :
    freqEstimate 90 = some 3876 ∧ SAMPLE_RATE * 90 / (SAMPLES / 2) = 3875 ∧
      ¬ (freqEstimate 90 = some (SAMPLE_RATE * 90 / (SAMPLES / 2))) := by
  decide

/-- C2, amended: for every peak index `k` in `1..511` the estimate that
`ADCTask` stores is defined (no zero divisor) and is the truncated quotient of
`SAMPLE_RATE*k/FFT_SIZE` or that quotient plus one, never less; it is the
truncated quotient for every `k` in `1..89`, and 90 is the first index where
it is one above (3876 instead of 3875). -/
theorem estimate_floor_or_next (k : Nat) (h1 : 1 ≤ k) (h2 : k ≤ 511) :
    (freqEstimate k = some (SAMPLE_RATE * k / (SAMPLES / 2)) ∨
        freqEstimate k = some (SAMPLE_RATE * k / (SAMPLES / 2) + 1))
      ∧ (k ≤ 89 → freqEstimate k = some (SAMPLE_RATE * k / (SAMPLES / 2)))
      ∧ freqEstimate 90 = some (SAMPLE_RATE * 90 / (SAMPLES / 2) + 1) := by
  have table : ∀ j, j < 512 → 1 ≤ j →
      (freqEstimate j = some (SAMPLE_RATE * j / (SAMPLES / 2)) ∨
        freqEstimate j = some (SAMPLE_RATE * j / (SAMPLES / 2) + 1)) := by
    decide!
  have low : ∀ j, j < 90 → 1 ≤ j →
      freqEstimate j = some (SAMPLE_RATE * j / (SAMPLES / 2)) := by
    decide!
  exact ⟨table k (by omega) h1, fun h89 => low k (by omega) h1, by decide⟩

/-- Witness of the amended C2 at the peak indices 89 and 90. -/
theorem estimate_floor_or_next_witness :
    (1 : Nat) ≤ 89 ∧ (89 : Nat) ≤ 511
      ∧ freqEstimate 89 = some (SAMPLE_RATE * 89 / (SAMPLES / 2))
      ∧ (freqEstimate 90 = some (SAMPLE_RATE * 90 / (SAMPLES / 2)) ∨
          freqEstimate 90 = some (SAMPLE_RATE * 90 / (SAMPLES / 2) + 1)) :=
  ⟨by decide, by decide,
    (estimate_floor_or_next 89 (by decide) (by decide)).2.1 (by decide),
    (estimate_floor_or_next 90 (by decide) (by decide)).1⟩

/-! ## Octave and note classification -/

/-- C3: for a corrected frequency of 0 the classification step yields octave 0
and the label "C", whatever the note state was before: the octave loop is left
at once with `n = 0`, the folded value is 0, and the first branch of the label
chain fires.  The same holds for the whole recomputation on an estimate buffer
of zeros. -/
theorem zero_frequency_classified (noteOut : NOTE) :
    octaveSearch 0 = some 0
      ∧ dummyFreq 0 0 = 0
      ∧ noteLabel 0 noteOut.note = "C"
      ∧ classify 0 noteOut = some { note := "C", oct := 0, freq := 0 }
      ∧ recompute (List.replicate FREQ_AVG_SIZE 0) noteOut
          = some { note := "C", oct := 0, freq := 0 } := by
  refine ⟨by decide, by decide, rfl, rfl, ?_⟩
  have hz : correctFreq (averageFreq (List.replicate FREQ_AVG_SIZE 0)) = 0 := by decide
  unfold recompute
  rw [hz]
  rfl

/-- C4: for a corrected frequency `f` with `f*100 < 2^32` the octave that
`ADCTask` computes is the least `n` with `(f*100) >> n ≤ 3187`, and the
quotient `(f*100)/(1<<n)` of the code is that shift. -/
theorem octave_least_shift (f : Nat) (hf : f * 100 < 4294967296) (noteOut : NOTE) :
    ∃ n, octaveSearch f = some n
      ∧ (classify f noteOut).map NOTE.oct = some n
      ∧ (f * 100) >>> n ≤ 3187
      ∧ (∀ m, m < n → 3187 < (f * 100) >>> m)
      ∧ (f * 100) / (1 <<< n) = (f * 100) >>> n := by
  obtain ⟨k, hk, hk21, hle, hmin⟩ := octaveSearch_spec f
  have hu : u32 (f * 100) = f * 100 := Nat.mod_eq_of_lt hf
  rw [hu] at hle hmin
  refine ⟨k, hk, ?_, ?_, ?_, ?_⟩
  · have h8 : u8 k = k := Nat.mod_eq_of_lt (by omega)
    simp only [classify, hk, Option.map_some', h8]
  · rw [Nat.shiftRight_eq_div_pow]; exact hle
  · intro m hm
    rw [Nat.shiftRight_eq_div_pow]; exact hmin m hm
  · rw [Nat.one_shiftLeft, Nat.shiftRight_eq_div_pow]

/-- Witness of C4 at the corrected frequency 440. -/
theorem octave_least_shift_witness :
    (440 : Nat) * 100 < 4294967296 ∧
      ∃ n, octaveSearch 440 = some n
        ∧ (classify 440 ADCInit.noteOut).map NOTE.oct = some n
        ∧ (440 * 100) >>> n ≤ 3187
        ∧ (∀ m, m < n → 3187 < (440 * 100) >>> m)
        ∧ (440 * 100) / (1 <<< n) = (440 * 100) >>> n :=
  ⟨by decide, octave_least_shift 440 (by decide) ADCInit.noteOut⟩

/-- C5 fails on the code: twenty analysis cycles after `ADCInit` with the peak
index 379 give the corrected frequency 16297, octave 9 and the folded value
3183; no branch of the label chain covers 3183, so the label stays "X" (the
label of `ADCInit`), and with another previous label the same frequency gets
that other label. -/
theorem label_kept_above_3178 :
    (runADC (List.replicate 20 379)).map ADCState.noteOut
        = some { note := "X", oct := 9, freq := 16297 }
      ∧ dummyFreq 16297 9 = 3183
      ∧ (∀ old, noteLabel 3183 old = old)
      ∧ classify 16297 { note := "X", oct := 255, freq := 0 }
          = some { note := "X", oct := 9, freq := 16297 }
      ∧ classify 16297 { note := "G", oct := 4, freq := 392 }
          = some { note := "G", oct := 9, freq := 16297 } := by
  refine ⟨by decide, by decide, fun old => rfl, by decide, by decide⟩

/-! ## Change detection -/

theorem noteLabel_gap (d : Nat) (h : 3178 < d) (old : String) : noteLabel d old = old := by
  unfold noteLabel
  iterate 12 rw [if_neg (by omega)]

theorem noteLabel_low (d : Nat) (h : d ≤ 3178) (o1 o2 : String) :
    noteLabel d o1 = noteLabel d o2 := by
  unfold noteLabel
  by_cases h1 : d < 1683
  · rw [if_pos h1, if_pos h1]
  rw [if_neg h1, if_neg h1]
  by_cases h2 : d ≥ 1638 ∧ d < 1783
  · rw [if_pos h2, if_pos h2]
  rw [if_neg h2, if_neg h2]
  by_cases h3 : d ≥ 1783 ∧ d < 1890
  · rw [if_pos h3, if_pos h3]
  rw [if_neg h3, if_neg h3]
  by_cases h4 : d ≥ 1890 ∧ d < 2002
  · rw [if_pos h4, if_pos h4]
  rw [if_neg h4, if_neg h4]
  by_cases h5 : d ≥ 2002 ∧ d < 2121
  · rw [if_pos h5, if_pos h5]
  rw [if_neg h5, if_neg h5]
  by_cases h6 : d ≥ 2121 ∧ d < 2247
  · rw [if_pos h6, if_pos h6]
  rw [if_neg h6, if_neg h6]
  by_cases h7 : d ≥ 2247 ∧ d < 2381
  · rw [if_pos h7, if_pos h7]
  rw [if_neg h7, if_neg h7]
  by_cases h8 : d ≥ 2381 ∧ d < 2523
  · rw [if_pos h8, if_pos h8]
  rw [if_neg h8, if_neg h8]
  by_cases h9 : d ≥ 2523 ∧ d < 2673
  · rw [if_pos h9, if_pos h9]
  rw [if_neg h9, if_neg h9]
  by_cases h10 : d ≥ 2673 ∧ d < 2832
  · rw [if_pos h10, if_pos h10]
  rw [if_neg h10, if_neg h10]
  by_cases h11 : d ≥ 2673 ∧ d < 3000
  · rw [if_pos h11, if_pos h11]
  rw [if_neg h11, if_neg h11]
  have h12 : d ≥ 3000 ∧ d ≤ 3178 := by omega
  rw [if_pos h12, if_pos h12]

theorem noteLabel_idem (d : Nat) (old : String) :
    noteLabel d (noteLabel d old) = noteLabel d old := by
  by_cases h : d ≤ 3178
  · exact noteLabel_low d h _ _
  · rw [noteLabel_gap d (by omega)]

theorem classify_shape (f : Nat) (old new : NOTE) (h : classify f old = some new) :
    new.freq = f ∧ new.oct ≤ 21 ∧ classify f new = some new := by
  obtain ⟨k, hk, hk21, _⟩ := octaveSearch_spec f
  simp only [classify, hk, Option.some.injEq] at h ⊢
  have h8 : u8 k = k := Nat.mod_eq_of_lt (by omega)
  subst h
  refine ⟨rfl, ?_, ?_⟩
  · simp only [h8]; exact hk21
  · simp only [noteLabel_idem]

theorem noteChanged_self (a : NOTE) : noteChanged a a = false := by
  simp [noteChanged]

theorem noteChanged_iff (a b : NOTE) :
    noteChanged a b = true ↔
      firstChar a.note ≠ firstChar b.note ∨ a.oct ≠ b.oct ∨ a.freq ≠ b.freq := by
  simp [noteChanged, or_assoc]

theorem ADCTask_shape (s t : ADCState) (k : Nat) (h : ADCTask s k = some t) :
    (t.noteOut = s.noteOut ∨ ∃ buf, recompute buf s.noteOut = some t.noteOut)
      ∧ t.note_prev = t.noteOut
      ∧ t.NoteChgFlag =
          (if noteChanged t.noteOut s.note_prev then s.NoteChgFlag + 1 else s.NoteChgFlag) := by
  unfold ADCTask at h
  cases he : freqEstimate k with
  | none => rw [he] at h; simp at h
  | some est =>
    rw [he] at h
    dsimp only at h
    by_cases hc : u8 (s.conv_cnt + 1) = FREQ_AVG_SIZE
    · rw [if_pos hc] at h
      cases hr : recompute (s.adcFreq.set s.conv_cnt est) s.noteOut with
      | none => rw [hr] at h; simp at h
      | some r =>
        rw [hr] at h
        simp only [Option.map_some', Option.some.injEq] at h
        subst h
        exact ⟨Or.inr ⟨_, hr⟩, rfl, rfl⟩
    · rw [if_neg hc] at h
      simp only [Option.some.injEq] at h
      subst h
      exact ⟨Or.inl rfl, rfl, rfl⟩

theorem ADCTask_inv (s t : ADCState) (k : Nat) (h : ADCTask s k = some t)
    (hp : s.note_prev = s.noteOut)
    (hi : s.noteOut = ADCInit.noteOut ∨ classify s.noteOut.freq s.noteOut = some s.noteOut) :
    (t.note_prev = t.noteOut
      ∧ (t.noteOut = ADCInit.noteOut ∨ classify t.noteOut.freq t.noteOut = some t.noteOut))
    ∧ (noteChanged t.noteOut s.note_prev = false → t.noteOut = s.note_prev) := by
  obtain ⟨hcase, hprev, _⟩ := ADCTask_shape s t k h
  rcases hcase with hsame | ⟨buf, hre⟩
  · refine ⟨⟨hprev, ?_⟩, ?_⟩
    · rw [hsame]; exact hi
    · intro _; rw [hsame, hp]
  · unfold recompute at hre
    obtain ⟨hf, ho, hst⟩ := classify_shape _ _ _ hre
    refine ⟨⟨hprev, Or.inr ?_⟩, ?_⟩
    · rw [hf]; exact hst
    · intro hno
      have hno2 : ¬ (noteChanged t.noteOut s.note_prev = true) := by simp [hno]
      rw [noteChanged_iff] at hno2
      push_neg at hno2
      obtain ⟨_, hoct, hfreq⟩ := hno2
      rw [hp] at hoct hfreq ⊢
      rcases hi with hinit | hstable
      · rw [hinit] at hoct
        have : t.noteOut.oct = 255 := hoct
        omega
      · rw [← hfreq, hf] at hstable
        rw [hstable] at hre
        exact (Option.some.inj hre).symm

theorem runADCFrom_inv (ks : List Nat) :
    ∀ s t : ADCState, runADCFrom s ks = some t →
      s.note_prev = s.noteOut →
      (s.noteOut = ADCInit.noteOut ∨ classify s.noteOut.freq s.noteOut = some s.noteOut) →
      t.note_prev = t.noteOut
        ∧ (t.noteOut = ADCInit.noteOut ∨ classify t.noteOut.freq t.noteOut = some t.noteOut) := by
  induction ks with
  | nil =>
    intro s t h hp hi
    simp only [runADCFrom, Option.some.injEq] at h
    subst h
    exact ⟨hp, hi⟩
  | cons k ks ih =>
    intro s t h hp hi
    unfold runADCFrom at h
    cases hk : ADCTask s k with
    | none => rw [hk] at h; simp at h
    | some u =>
      rw [hk] at h
      obtain ⟨⟨hp2, hi2⟩, _⟩ := ADCTask_inv s u k hk hp hi
      exact ih u t h hp2 hi2

theorem NOTE_ne_iff (a b : NOTE) :
    a ≠ b ↔ (a.note ≠ b.note ∨ a.oct ≠ b.oct ∨ a.freq ≠ b.freq) := by
  cases a
  cases b
  simp only [ne_eq, NOTE.mk.injEq]
  tauto

/-- C6: for every previous note that `ADCTask` holds in a state reached from
`ADCInit` and the new note of the next cycle, the cycle posts `NoteChgFlag`
(once) exactly when the two notes differ in at least one of label, octave and
frequency, and posts nothing when all three are equal.  The test in the code
reads the first character of the two labels, the octave and the frequency; on
the states that are reached a change of the label always comes with a change
of the octave or of the frequency. -/
theorem change_posted_iff_differs (ks : List Nat) (s t : ADCState) (k : Nat)
    (hs : runADC ks = some s) (ht : ADCTask s k = some t) :
    (t.NoteChgFlag = s.NoteChgFlag + 1 ↔ t.noteOut ≠ s.note_prev)
      ∧ (t.NoteChgFlag = s.NoteChgFlag ↔ t.noteOut = s.note_prev)
      ∧ (t.noteOut ≠ s.note_prev ↔
          (t.noteOut.note ≠ s.note_prev.note ∨ t.noteOut.oct ≠ s.note_prev.oct
            ∨ t.noteOut.freq ≠ s.note_prev.freq))
      ∧ (∀ a b : NOTE, noteChanged a b = true ↔
          (firstChar a.note ≠ firstChar b.note ∨ a.oct ≠ b.oct ∨ a.freq ≠ b.freq)) := by
  obtain ⟨hp, hi⟩ := runADCFrom_inv ks ADCInit s hs rfl (Or.inl rfl)
  obtain ⟨_, hkeep⟩ := ADCTask_inv s t k ht hp hi
  obtain ⟨_, _, hflag⟩ := ADCTask_shape s t k ht
  refine ⟨?_, ?_, NOTE_ne_iff _ _, noteChanged_iff⟩
  · cases hc : noteChanged t.noteOut s.note_prev with
    | false =>
      rw [hc] at hflag
      have he := hkeep hc
      simp only [Bool.false_eq_true, if_false] at hflag
      constructor
      · intro h; omega
      · intro h; exact absurd he h
    | true =>
      rw [hc] at hflag
      simp only [if_true] at hflag
      constructor
      · intro _ he
        rw [he, noteChanged_self] at hc
        exact absurd hc (by decide)
      · intro _; exact hflag
  · cases hc : noteChanged t.noteOut s.note_prev with
    | false =>
      rw [hc] at hflag
      simp only [Bool.false_eq_true, if_false] at hflag
      exact ⟨fun _ => hkeep hc, fun _ => hflag⟩
    | true =>
      rw [hc] at hflag
      simp only [if_true] at hflag
      constructor
      · intro h; omega
      · intro he
        rw [he, noteChanged_self] at hc
        exact absurd hc (by decide)

/-- Witness of C6: the twentieth cycle after `ADCInit` with the
peak index 379 changes the note and posts once. -/
theorem change_posted_iff_differs_witness :
    ∃ s t : ADCState, runADC (List.replicate 19 379) = some s ∧ ADCTask s 379 = some t
      ∧ t.noteOut = { note := "X", oct := 9, freq := 16297 }
      ∧ t.noteOut ≠ s.note_prev
      ∧ t.NoteChgFlag = s.NoteChgFlag + 1 := by
  have hs : runADC (List.replicate 19 379)
      = some { adcFreq := List.replicate 19 16322 ++ [0], conv_cnt := 19,
               noteOut := { note := "X", oct := 255, freq := 0 },
               note_prev := { note := "X", oct := 255, freq := 0 },
               NoteChgFlag := 0 } := by decide
  have ht : ADCTask { adcFreq := List.replicate 19 16322 ++ [0], conv_cnt := 19,
                      noteOut := { note := "X", oct := 255, freq := 0 },
                      note_prev := { note := "X", oct := 255, freq := 0 },
                      NoteChgFlag := 0 } 379
      = some { adcFreq := List.replicate 20 16322, conv_cnt := 0,
               noteOut := { note := "X", oct := 9, freq := 16297 },
               note_prev := { note := "X", oct := 9, freq := 16297 },
               NoteChgFlag := 1 } := by decide
  exact ⟨_, _, hs, ht, rfl, by decide,
    (change_posted_iff_differs _ _ _ _ hs ht).1.mpr (by decide)⟩

/-! ## Waveform synthesis: zero amplitude -/

theorem dcLoop_frame (layer : Nat) (l : List Nat) :
    ∀ s : WaveTaskState,
      let r := l.foldl
        (fun st wave_index =>
          { st with WaveOut := writeSample st.WaveOut layer wave_index DC_OFFSET }) s
      (∀ i, i ∈ l → r.WaveOut layer i = DC_OFFSET)
        ∧ (∀ i, s.WaveOut layer i = DC_OFFSET → r.WaveOut layer i = DC_OFFSET) := by
  induction l with
  | nil =>
    intro s
    exact ⟨fun i hi => absurd hi (List.not_mem_nil i), fun i h => h⟩
  | cons a l ih =>
    intro s
    simp only [List.foldl_cons]
    obtain ⟨h1, h2⟩ := ih { s with WaveOut := writeSample s.WaveOut layer a DC_OFFSET }
    refine ⟨?_, ?_⟩
    · intro i hi
      rcases List.mem_cons.mp hi with hia | hil
      · apply h2
        simp [writeSample, hia]
      · exact h1 i hil
    · intro i hs
      apply h2
      simp only [writeSample]
      split
      · rfl
      · exact hs

/-- C7: whatever the waveform type, the frequency and the state of `WaveTask`
before the cycle, a fill cycle whose snapshot has amplitude step 0 leaves the
value `DC_OFFSET = 680` in all 60 entries of the layer it was given. -/
theorem zero_amplitude_fills_dc (arm_sin_q31 : Int → Int) (s : WaveTaskState)
    (buffer_layer : Nat) (CurrentStruct : WAVE_T) (h : CurrentStruct.amp = 0)
    (i : Nat) (hi : i < 60) :
    (waveFill arm_sin_q31 s buffer_layer CurrentStruct).WaveOut buffer_layer i = 680 := by
  unfold waveFill
  rw [if_pos (by rw [h]; rfl)]
  exact (dcLoop_frame buffer_layer (List.range BUFFER_SIZE) s).1 i
    (List.mem_range.mpr hi)

/-- Witness of C7: a triangle snapshot of 440 Hz with amplitude step 0, layer 1,
last entry. -/
theorem zero_amplitude_fills_dc_witness :
    ({ type := 2, amp := 0, freq := 440 } : WAVE_T).amp = 0 ∧ (59 : Nat) < 60 ∧
      (waveFill (fun x => x)
        { WaveOut := fun _ _ => 0, radians := 0, Wave_State := TRI_T.POS_WAVE, changeState := 1 }
        1 { type := 2, amp := 0, freq := 440 }).WaveOut 1 59 = 680 :=
  ⟨rfl, by decide, zero_amplitude_fills_dc _ _ 1 { type := 2, amp := 0, freq := 440 } rfl 59
    (by decide)⟩

/-! ## Double buffering -/

theorem dmaRun_inv (t : Nat) :
    (dmaRun t).saddr = t % 120 ∧ (dmaRun t).rdy.flag = t / 60
      ∧ (dmaRun t).rdy.index = (t / 60 + 1) % 2 := by
  induction t with
  | zero => exact ⟨rfl, rfl, rfl⟩
  | succ t ih =>
    obtain ⟨h1, h2, h3⟩ := ih
    simp only [dmaRun, dmaTransfer, WAVE_SAMPLES_PER_BLOCK, WAVE_NUM_BLOCKS,
      DMA0_DMA16_IRQHandler]
    split
    · rename_i hc
      simp only []
      refine ⟨by omega, by omega, ?_⟩
      split <;> omega
    · split
      · rename_i hc1 hc2
        simp only []
        refine ⟨by omega, by omega, ?_⟩
        split <;> omega
      · rename_i hc1 hc2
        simp only []
        refine ⟨by omega, by omega, by omega⟩

/-- C8: starting from `DMAInit`, at every moment between the `n`-th and the
`(n+1)`-th completion interrupt (`n ≥ 1`, that is after `60*n + r` sample
transfers with `r < 60`) `DMAPend` delivers the index `(n-1) mod 2`, which is 0
or 1, the engine drains block `n mod 2`, and the two differ; `n` interrupts
have been raised. -/
theorem dma_index_alternates (n : Nat) (hn : 1 ≤ n) (r : Nat) (hr : r < 60) :
    (DMAPend (dmaRun (WAVE_SAMPLES_PER_BLOCK * n + r)).rdy).map Prod.snd = some ((n - 1) % 2)
      ∧ (dmaRun (WAVE_SAMPLES_PER_BLOCK * n + r)).rdy.index = (n - 1) % 2
      ∧ (dmaRun (WAVE_SAMPLES_PER_BLOCK * n + r)).rdy.index < 2
      ∧ engineHalf (dmaRun (WAVE_SAMPLES_PER_BLOCK * n + r)) = n % 2
      ∧ (dmaRun (WAVE_SAMPLES_PER_BLOCK * n + r)).rdy.index
          ≠ engineHalf (dmaRun (WAVE_SAMPLES_PER_BLOCK * n + r))
      ∧ (dmaRun (WAVE_SAMPLES_PER_BLOCK * n + r)).rdy.flag = n := by
  obtain ⟨h1, h2, h3⟩ := dmaRun_inv (WAVE_SAMPLES_PER_BLOCK * n + r)
  simp only [WAVE_SAMPLES_PER_BLOCK] at h1 h2 h3 ⊢
  have hq : (60 * n + r) / 60 = n := by omega
  rw [hq] at h2 h3
  have hidx : (dmaRun (60 * n + r)).rdy.index = (n - 1) % 2 := by omega
  have heng : engineHalf (dmaRun (60 * n + r)) = n % 2 := by
    simp only [engineHalf, WAVE_SAMPLES_PER_BLOCK, h1]
    omega
  refine ⟨?_, hidx, by omega, heng, by omega, h2⟩
  have hf : (dmaRun (60 * n + r)).rdy.flag ≠ 0 := by omega
  simp only [DMAPend, if_neg hf, Option.map_some', hidx]

/-- Witness of C8 at the third interrupt. -/
theorem dma_index_alternates_witness :
    (1 : Nat) ≤ 3 ∧ (0 : Nat) < 60 ∧
      (DMAPend (dmaRun (WAVE_SAMPLES_PER_BLOCK * 3 + 0)).rdy).map Prod.snd = some 0
      ∧ engineHalf (dmaRun (WAVE_SAMPLES_PER_BLOCK * 3 + 0)) = 1 :=
  ⟨by decide, by decide, (dma_index_alternates 3 (by decide) 0 (by decide)).1,
    (dma_index_alternates 3 (by decide) 0 (by decide)).2.2.2.1⟩

/-! ## Shared waveform record -/

/-- C9: `AmpSet` stores the given value in `amp` and leaves `type` and `freq`
as they were, `FreqSet` does so for `freq`, `TypeSet` for `type`; the value is
stored as given, without clamping or validation. -/
theorem setters_store_one_field (m : WaveShared) (v : Nat) :
    (AmpSet m v).WaveStruct
        = { type := m.WaveStruct.type, amp := v, freq := m.WaveStruct.freq }
      ∧ (FreqSet m v).WaveStruct
        = { type := m.WaveStruct.type, amp := m.WaveStruct.amp, freq := v }
      ∧ (TypeSet m v).WaveStruct
        = { type := v, amp := m.WaveStruct.amp, freq := m.WaveStruct.freq } :=
  ⟨rfl, rfl, rfl⟩

/-- C10, as stated, fails for `TypeSet`: it leaves the count of `WaveChgFlag`
as it was, and a consumer that finds the flag empty stays blocked in `WaveGet`
after a change of type. -/
theorem typeset_does_not_post :
    (TypeSet { WaveStruct := { type := 1, amp := 20, freq := 10 },
               WaveStructMutexKey := false, WaveChgFlag := 0 } 2).WaveChgFlag = 0
      ∧ WaveGet (TypeSet { WaveStruct := { type := 1, amp := 20, freq := 10 },
                           WaveStructMutexKey := false, WaveChgFlag := 0 } 2) = none
      ∧ ¬ (∀ (m : WaveShared) (v : Nat), (TypeSet m v).WaveChgFlag = m.WaveChgFlag + 1) := by
  refine ⟨rfl, rfl, ?_⟩
  intro h
  exact absurd (h { WaveStruct := { type := 1, amp := 20, freq := 10 },
                    WaveStructMutexKey := false, WaveChgFlag := 0 } 2) (by decide)

/-- C10, amended: `AmpSet` and `FreqSet` post `WaveChgFlag` once on every call,
so `WaveGet` then returns with the amplitude and frequency just stored;
`TypeSet` does not post the flag, and after it a consumer that found the flag
empty is still blocked. -/
theorem amp_freq_setters_post (m : WaveShared) (v : Nat) :
    (AmpSet m v).WaveChgFlag = m.WaveChgFlag + 1
      ∧ (FreqSet m v).WaveChgFlag = m.WaveChgFlag + 1
      ∧ (TypeSet m v).WaveChgFlag = m.WaveChgFlag
      ∧ (WaveGet (AmpSet m v)).map Prod.snd = some (v, m.WaveStruct.freq)
      ∧ (WaveGet (FreqSet m v)).map Prod.snd = some (m.WaveStruct.amp, v)
      ∧ WaveGet (TypeSet { m with WaveChgFlag := 0 } v) = none := by
  refine ⟨rfl, rfl, rfl, ?_, ?_, rfl⟩
  · simp [WaveGet, AmpSet, OSSemPost, OSMutexPost, OSMutexPend]
  · simp [WaveGet, FreqSet, OSSemPost, OSMutexPost, OSMutexPend]

/-! ## Delivery of the note -/

theorem runADCFrom_flag (ks : List Nat) :
    ∀ s t : ADCState, runADCFrom s ks = some t →
      s.note_prev = s.noteOut →
      (s.noteOut = ADCInit.noteOut ∨ classify s.noteOut.freq s.noteOut = some s.noteOut) →
      s.NoteChgFlag ≤ t.NoteChgFlag
        ∧ (t.noteOut ≠ s.noteOut → s.NoteChgFlag + 1 ≤ t.NoteChgFlag) := by
  induction ks with
  | nil =>
    intro s t h _ _
    simp only [runADCFrom, Option.some.injEq] at h
    subst h
    exact ⟨Nat.le_refl _, fun hne => absurd rfl hne⟩
  | cons k ks ih =>
    intro s t h hp hi
    unfold runADCFrom at h
    cases hk : ADCTask s k with
    | none => rw [hk] at h; simp at h
    | some u =>
      rw [hk] at h
      obtain ⟨⟨hp2, hi2⟩, hkeep⟩ := ADCTask_inv s u k hk hp hi
      obtain ⟨_, _, hflag⟩ := ADCTask_shape s u k hk
      obtain ⟨hle, hstep⟩ := ih u t h hp2 hi2
      cases hc : noteChanged u.noteOut s.note_prev with
      | false =>
        rw [hc] at hflag
        simp only [Bool.false_eq_true, if_false] at hflag
        have hsame : u.noteOut = s.noteOut := by rw [hkeep hc, hp]
        refine ⟨by omega, ?_⟩
        intro hne
        rw [← hsame] at hne
        have := hstep hne
        omega
      | true =>
        rw [hc] at hflag
        simp only [if_true] at hflag
        exact ⟨by omega, fun _ => by omega⟩

/-- C11: from any state that `ADCTask` reaches after `ADCInit`, when the note
changes (to `a.noteOut`) and later changes again (to `b.noteOut`) before
`NotePend` is called, at least two notifications have been posted, the call of
`NotePend` returns without blocking and delivers `b.noteOut`, the latest note,
and not `a.noteOut`. -/
theorem notePend_delivers_latest (ks0 ks1 ks2 : List Nat) (s a b : ADCState)
    (h0 : runADC ks0 = some s)
    (h1 : runADCFrom s ks1 = some a) (h2 : runADCFrom a ks2 = some b)
    (hc1 : a.noteOut ≠ s.noteOut) (hc2 : b.noteOut ≠ a.noteOut) :
    s.NoteChgFlag + 2 ≤ b.NoteChgFlag
      ∧ (NotePend b).map Prod.snd = some b.noteOut
      ∧ (NotePend b).map Prod.snd ≠ some a.noteOut := by
  obtain ⟨hp, hi⟩ := runADCFrom_inv ks0 ADCInit s h0 rfl (Or.inl rfl)
  obtain ⟨hpa, hia⟩ := runADCFrom_inv ks1 s a h1 hp hi
  have hfa := (runADCFrom_flag ks1 s a h1 hp hi).2 hc1
  have hfb := (runADCFrom_flag ks2 a b h2 hpa hia).2 hc2
  have hf : b.NoteChgFlag ≠ 0 := by omega
  have hr : (NotePend b).map Prod.snd = some b.noteOut := by
    simp only [NotePend, if_neg hf, Option.map_some']
  refine ⟨by omega, hr, ?_⟩
  rw [hr]
  intro h
  exact hc2 (Option.some.inj h)

/-- Witness of C11: after `ADCInit`, twenty cycles with the peak index 379 post
the note `{"X", 9, 16297}`, twenty more with the peak index 90 post
`{"B", 7, 3870}`; `NotePend` then delivers the second note. -/
theorem notePend_delivers_latest_witness :
    ∃ a b : ADCState,
      runADC [] = some ADCInit
        ∧ runADCFrom ADCInit (List.replicate 20 379) = some a
        ∧ runADCFrom a (List.replicate 20 90) = some b
        ∧ a.noteOut = { note := "X", oct := 9, freq := 16297 }
        ∧ b.noteOut = { note := "B", oct := 7, freq := 3870 }
        ∧ (NotePend b).map Prod.snd = some { note := "B", oct := 7, freq := 3870 } := by
  have h1 : runADCFrom ADCInit (List.replicate 20 379)
      = some { adcFreq := List.replicate 20 16322, conv_cnt := 0,
               noteOut := { note := "X", oct := 9, freq := 16297 },
               note_prev := { note := "X", oct := 9, freq := 16297 },
               NoteChgFlag := 1 } := by decide
  have h2 : runADCFrom { adcFreq := List.replicate 20 16322, conv_cnt := 0,
                         noteOut := { note := "X", oct := 9, freq := 16297 },
                         note_prev := { note := "X", oct := 9, freq := 16297 },
                         NoteChgFlag := 1 } (List.replicate 20 90)
      = some { adcFreq := List.replicate 20 3876, conv_cnt := 0,
               noteOut := { note := "B", oct := 7, freq := 3870 },
               note_prev := { note := "B", oct := 7, freq := 3870 },
               NoteChgFlag := 2 } := by decide
  exact ⟨_, _, rfl, h1, h2, rfl, rfl,
    (notePend_delivers_latest [] _ _ ADCInit _ _ rfl h1 h2 (by decide) (by decide)).2.1⟩

/-! ## Frequency entry in UITask -/

theorem setters_freq (m : WaveShared) (v : Nat) :
    (FreqSet m v).WaveStruct.freq = v ∧ (TypeSet m v).WaveStruct.freq = m.WaveStruct.freq
      ∧ (AmpSet m v).WaveStruct.freq = m.WaveStruct.freq :=
  ⟨rfl, rfl, rfl⟩

theorem UITask_key_digit (s : UIState) (k : Nat) (h1 : 48 ≤ k) (h2 : k ≤ 57)
    (hn : s.newFreq ≤ 10000) :
    UITask_key s k =
      if s.newFreq * 10 + (k - 48) ≤ 10000 then { s with newFreq := s.newFreq * 10 + (k - 48) }
      else s := by
  have hk : u8 (k - 48) = k - 48 := Nat.mod_eq_of_lt (by omega)
  unfold UITask_key
  rw [if_neg (by omega), if_neg (by omega), if_neg (by omega), if_neg (by omega),
    if_pos ⟨h1, h2⟩]
  simp only [hk, not_lt]
  by_cases hc : s.newFreq * 10 + (k - 48) ≤ 10000
  · rw [if_pos hc, if_pos hc]
    have e1 : u16 (s.newFreq * 10) = s.newFreq * 10 := Nat.mod_eq_of_lt (by omega)
    have e2 : u16 (s.newFreq * 10 + (k - 48)) = s.newFreq * 10 + (k - 48) :=
      Nat.mod_eq_of_lt (by omega)
    rw [e1, e2]
  · rw [if_neg hc, if_neg hc]

theorem UITask_key_inv (s : UIState) (k : Nat)
    (hn : s.newFreq ≤ 10000)
    (hl : ∀ v, v ∈ s.freqSetArgs → 10 ≤ v ∧ v ≤ 10000)
    (hf : 10 ≤ s.shared.WaveStruct.freq ∧ s.shared.WaveStruct.freq ≤ 10000) :
    (UITask_key s k).newFreq ≤ 10000
      ∧ (∀ v, v ∈ (UITask_key s k).freqSetArgs → 10 ≤ v ∧ v ≤ 10000)
      ∧ (10 ≤ (UITask_key s k).shared.WaveStruct.freq
          ∧ (UITask_key s k).shared.WaveStruct.freq ≤ 10000) := by
  by_cases hd : 48 ≤ k ∧ k ≤ 57
  · rw [UITask_key_digit s k hd.1 hd.2 hn]
    by_cases hc : s.newFreq * 10 + (k - 48) ≤ 10000
    · rw [if_pos hc]; exact ⟨hc, hl, hf⟩
    · rw [if_neg hc]; exact ⟨hn, hl, hf⟩
  · unfold UITask_key
    by_cases h35 : k = 35
    · rw [if_pos h35]
      by_cases h10 : s.newFreq ≥ 10
      · rw [if_pos h10]
        refine ⟨Nat.zero_le _, ?_, ?_⟩
        · intro v hv
          rcases List.mem_cons.mp hv with hv1 | hv2
          · rw [hv1]; exact ⟨h10, hn⟩
          · exact hl v hv2
        · exact ⟨h10, hn⟩
      · rw [if_neg h10]; exact ⟨hn, hl, hf⟩
    · rw [if_neg h35]
      by_cases h20 : k = 20
      · rw [if_pos h20]
        exact ⟨Nat.le_trans (Nat.div_le_self _ _) hn, hl, hf⟩
      · rw [if_neg h20]
        by_cases h17 : k = 17
        · rw [if_pos h17]; exact ⟨hn, hl, hf⟩
        · rw [if_neg h17]
          by_cases h18 : k = 18
          · rw [if_pos h18]; exact ⟨hn, hl, hf⟩
          · rw [if_neg h18, if_neg hd]; exact ⟨hn, hl, hf⟩

theorem runUI_inv (m : WaveShared) (keys : List Nat) :
    (runUI m keys).newFreq ≤ 10000
      ∧ (∀ v, v ∈ (runUI m keys).freqSetArgs → 10 ≤ v ∧ v ≤ 10000)
      ∧ (10 ≤ (runUI m keys).shared.WaveStruct.freq
          ∧ (runUI m keys).shared.WaveStruct.freq ≤ 10000) := by
  induction keys using List.reverseRecOn with
  | nil =>
    have e1 : (runUI m []).newFreq = 0 := rfl
    have e2 : (runUI m []).shared.WaveStruct.freq = 10 := rfl
    have e3 : (runUI m []).freqSetArgs = [10] := rfl
    rw [e1, e2, e3]
    refine ⟨by omega, ?_, by omega, by omega⟩
    intro v hv
    have hv10 : v = 10 := by simpa using hv
    omega
  | append_singleton ks k ih =>
    have hstep : runUI m (ks ++ [k]) = UITask_key (runUI m ks) k := by
      simp [runUI, List.foldl_append]
    rw [hstep]
    exact UITask_key_inv _ k ih.1 ih.2.1 ih.2.2

/-- C12: for every sequence of key codes, every value that `UITask` has passed
to `FreqSet` lies in `10..10000` (the first one, at start-up, is 10), the entry
accumulator `newFreq` never exceeds 10000, a digit is accepted exactly when
`newFreq*10 + digit ≤ 10000`, and `'#'` calls `FreqSet` exactly when
`newFreq ≥ 10`. -/
theorem ui_frequency_in_range (m : WaveShared) (keys : List Nat) (digit : Nat)
    (hd : digit ≤ 9) :
    (∀ v, v ∈ (runUI m keys).freqSetArgs → 10 ≤ v ∧ v ≤ 10000)
      ∧ (runUI m keys).newFreq ≤ 10000
      ∧ (10 ≤ (runUI m keys).shared.WaveStruct.freq
          ∧ (runUI m keys).shared.WaveStruct.freq ≤ 10000)
      ∧ (runUI m []).freqSetArgs = [10]
      ∧ (UITask_key (runUI m keys) (48 + digit)).newFreq =
          (if (runUI m keys).newFreq * 10 + digit ≤ 10000
           then (runUI m keys).newFreq * 10 + digit else (runUI m keys).newFreq)
      ∧ (UITask_key (runUI m keys) 35).freqSetArgs =
          (if 10 ≤ (runUI m keys).newFreq
           then (runUI m keys).newFreq :: (runUI m keys).freqSetArgs
           else (runUI m keys).freqSetArgs) := by
  obtain ⟨hn, hl, hf⟩ := runUI_inv m keys
  refine ⟨hl, hn, hf, rfl, ?_, ?_⟩
  · rw [UITask_key_digit _ (48 + digit) (by omega) (by omega) hn]
    have e : 48 + digit - 48 = digit := by omega
    rw [e]
    split <;> rfl
  · unfold UITask_key
    rw [if_pos rfl]
    split <;> rfl

/-- Witness of C12: the keys `1 2 0 0 0 0 #` leave 10000 uncommitted as 1200
(the fifth digit is refused), so `FreqSet` receives 1200 after the initial 10. -/
theorem ui_frequency_in_range_witness :
    (9 : Nat) ≤ 9
      ∧ (runUI { WaveStruct := { type := 0, amp := 20, freq := 0 },
                 WaveStructMutexKey := false, WaveChgFlag := 0 }
           [49, 50, 48, 48, 48, 48, 35]).freqSetArgs = [1200, 10]
      ∧ (∀ v, v ∈ (runUI { WaveStruct := { type := 0, amp := 20, freq := 0 },
                           WaveStructMutexKey := false, WaveChgFlag := 0 }
                     [49, 50, 48, 48, 48, 48, 35]).freqSetArgs → 10 ≤ v ∧ v ≤ 10000) :=
  ⟨by decide, by decide,
    (ui_frequency_in_range { WaveStruct := { type := 0, amp := 20, freq := 0 },
                             WaveStructMutexKey := false, WaveChgFlag := 0 }
      [49, 50, 48, 48, 48, 48, 35] 9 (by decide)).1⟩

/-! ## Amplitude step in TsiTask -/

theorem electrode1_step (touchLevel : Nat) (s : TsiState) (count : Nat)
    (ha : s.amp ≤ 20) (hl : ∀ v, v ∈ s.ampSetArgs → v ≤ 20) :
    (TsiTask_electrode1 touchLevel s count).amp ≤ 20
      ∧ (∀ v, v ∈ (TsiTask_electrode1 touchLevel s count).ampSetArgs → v ≤ 20)
      ∧ s.amp ≤ (TsiTask_electrode1 touchLevel s count).amp
      ∧ (TsiTask_electrode1 touchLevel s count).amp ≤ s.amp + 1 := by
  unfold TsiTask_electrode1
  by_cases hc : count > touchLevel ∧ s.amp < MAX_STEP
  · rw [if_pos hc]
    have hlt : s.amp < 20 := hc.2
    have hu : u8 (s.amp + STEP_SIZE) = s.amp + 1 := Nat.mod_eq_of_lt (by simp only [STEP_SIZE]; omega)
    by_cases hb : s.leftBounce = 0
    · simp only [if_pos hb, hu]
      refine ⟨by omega, ?_, by omega, by omega⟩
      intro v hv
      rcases List.mem_cons.mp hv with h1 | h2
      · omega
      · exact hl v h2
    · simp only [if_neg hb]
      refine ⟨ha, ?_, Nat.le_refl _, by omega⟩
      intro v hv
      rcases List.mem_cons.mp hv with h1 | h2
      · omega
      · exact hl v h2
  · rw [if_neg hc]
    exact ⟨ha, hl, Nat.le_refl _, Nat.le_add_right _ _⟩

theorem electrode2_step (touchLevel : Nat) (s : TsiState) (count : Nat)
    (ha : s.amp ≤ 20) (hl : ∀ v, v ∈ s.ampSetArgs → v ≤ 20) :
    (TsiTask_electrode2 touchLevel s count).amp ≤ 20
      ∧ (∀ v, v ∈ (TsiTask_electrode2 touchLevel s count).ampSetArgs → v ≤ 20)
      ∧ (TsiTask_electrode2 touchLevel s count).amp ≤ s.amp
      ∧ s.amp ≤ (TsiTask_electrode2 touchLevel s count).amp + 1 := by
  unfold TsiTask_electrode2
  by_cases hc : count > touchLevel ∧ s.amp > MIN_STEP
  · rw [if_pos hc]
    have hgt : 0 < s.amp := hc.2
    have hu : u8 (s.amp + 256 - STEP_SIZE) = s.amp - 1 := by
      simp only [u8, STEP_SIZE]
      omega
    by_cases hb : s.rightBounce = 0
    · simp only [if_pos hb, hu]
      refine ⟨by omega, ?_, by omega, by omega⟩
      intro v hv
      rcases List.mem_cons.mp hv with h1 | h2
      · omega
      · exact hl v h2
    · simp only [if_neg hb]
      refine ⟨ha, ?_, Nat.le_refl _, by omega⟩
      intro v hv
      rcases List.mem_cons.mp hv with h1 | h2
      · omega
      · exact hl v h2
  · rw [if_neg hc]
    exact ⟨ha, hl, Nat.le_refl _, Nat.le_add_right _ _⟩

theorem runTsi_inv (touch1 touch2 : Nat) (m : WaveShared) (scans : List (Nat × Nat)) :
    (runTsi touch1 touch2 m scans).amp ≤ 20
      ∧ (∀ v, v ∈ (runTsi touch1 touch2 m scans).ampSetArgs → v ≤ 20) := by
  induction scans using List.reverseRecOn with
  | nil =>
    have e1 : (runTsi touch1 touch2 m []).amp = 20 := rfl
    have e2 : (runTsi touch1 touch2 m []).ampSetArgs = [] := rfl
    rw [e1, e2]
    exact ⟨Nat.le_refl _, fun v hv => absurd hv (List.not_mem_nil v)⟩
  | append_singleton cs c ih =>
    have hstep : runTsi touch1 touch2 m (cs ++ [c])
        = TsiTask touch1 touch2 (runTsi touch1 touch2 m cs) c := by
      simp [runTsi, List.foldl_append]
    rw [hstep]
    unfold TsiTask
    obtain ⟨h1, h2, _, _⟩ := electrode1_step touch1 _ c.1 ih.1 ih.2
    obtain ⟨h3, h4, _, _⟩ := electrode2_step touch2 _ c.2 h1 h2
    exact ⟨h3, h4⟩

/-- C13: for every sequence of electrode scans (and any touch levels), the
amplitude step held by `TsiTask` starts at 20 and stays within `0..20`, every
value passed to `AmpSet` is within `0..20`, the scan of electrode 1 leaves the
step or raises it by one, and the scan of electrode 2 leaves it or lowers it
by one. -/
theorem tsi_amplitude_in_range (touch1 touch2 : Nat) (m : WaveShared)
    (scans : List (Nat × Nat)) (count1 count2 : Nat) :
    (runTsi touch1 touch2 m []).amp = 20
      ∧ (runTsi touch1 touch2 m scans).amp ≤ 20
      ∧ (∀ v, v ∈ (runTsi touch1 touch2 m (scans ++ [(count1, count2)])).ampSetArgs → v ≤ 20)
      ∧ (runTsi touch1 touch2 m scans).amp
          ≤ (TsiTask_electrode1 touch1 (runTsi touch1 touch2 m scans) count1).amp
      ∧ (TsiTask_electrode1 touch1 (runTsi touch1 touch2 m scans) count1).amp
          ≤ (runTsi touch1 touch2 m scans).amp + 1
      ∧ (runTsi touch1 touch2 m (scans ++ [(count1, count2)])).amp
          ≤ (TsiTask_electrode1 touch1 (runTsi touch1 touch2 m scans) count1).amp
      ∧ (TsiTask_electrode1 touch1 (runTsi touch1 touch2 m scans) count1).amp
          ≤ (runTsi touch1 touch2 m (scans ++ [(count1, count2)])).amp + 1 := by
  obtain ⟨ha, hl⟩ := runTsi_inv touch1 touch2 m scans
  obtain ⟨h1, h2, h3, h4⟩ := electrode1_step touch1 _ count1 ha hl
  obtain ⟨_, _, h7, h8⟩ := electrode2_step touch2 _ count2 h1 h2
  have hstep : runTsi touch1 touch2 m (scans ++ [(count1, count2)])
      = TsiTask_electrode2 touch2
          (TsiTask_electrode1 touch1 (runTsi touch1 touch2 m scans) count1) count2 := by
    simp [runTsi, List.foldl_append, TsiTask]
  refine ⟨rfl, ha, (runTsi_inv touch1 touch2 m _).2, h3, h4, ?_, ?_⟩
  · rw [hstep]; exact h7
  · rw [hstep]; exact h8

/-- Witness of C13: with touch levels 100, a touch of electrode 2 held over two
passes lowers the step once, to 19, and `AmpSet` is called with 19 twice. -/
theorem tsi_amplitude_in_range_witness :
    (runTsi 100 100 { WaveStruct := { type := 1, amp := 20, freq := 10 },
                      WaveStructMutexKey := false, WaveChgFlag := 0 }
        [(0, 200), (0, 200)]).ampSetArgs = [19, 19]
      ∧ (runTsi 100 100 { WaveStruct := { type := 1, amp := 20, freq := 10 },
                          WaveStructMutexKey := false, WaveChgFlag := 0 }
          [(0, 200)]).amp ≤ 20 :=
  ⟨by decide,
    (tsi_amplitude_in_range 100 100 { WaveStruct := { type := 1, amp := 20, freq := 10 },
                                      WaveStructMutexKey := false, WaveChgFlag := 0 }
      [(0, 200)] 0 200).2.1⟩

/-! ## Termination of the octave search -/

/-- C14: the octave search of `ADCTask` terminates for every corrected
frequency (the product `freq*100` is taken modulo `2^32`): it returns some
`n ≤ 21`, so no shift reaches the word width; it returns 0 for the frequency 0;
and it returns some `n ≤ 10` for every frequency up to 22050. -/
theorem octave_search_terminates (freq : Nat) :
    (∃ n, octaveSearch freq = some n ∧ n ≤ 21 ∧ n < 32)
      ∧ octaveSearch 0 = some 0
      ∧ (freq ≤ 22050 → ∃ n, octaveSearch freq = some n ∧ n ≤ 10) := by
  obtain ⟨k, hk, hk21, _, hmin⟩ := octaveSearch_spec freq
  refine ⟨⟨k, hk, hk21, by omega⟩, by decide, ?_⟩
  intro hf
  refine ⟨k, hk, ?_⟩
  by_contra hgt
  have h10 := hmin 10 (by omega)
  have hu : u32 (freq * 100) = freq * 100 := Nat.mod_eq_of_lt (by omega)
  rw [hu] at h10
  norm_num at h10
  omega

/-- Witness of C14 at the largest frequency of the range, 22050. -/
theorem octave_search_terminates_witness :
    (22050 : Nat) ≤ 22050 ∧ ∃ n, octaveSearch 22050 = some n ∧ n ≤ 10 :=
  ⟨by decide, (octave_search_terminates 22050).2.2 (by decide)⟩

/-! ## Locking of the shared waveform record -/

/-- C15 fails on the code for `WaveGet`: it reads `WaveStruct.amp` and
`WaveStruct.freq` after the pend on `WaveChgFlag` without taking the mutex, and
it returns the two fields even while the mutex is held by another task.  The
three setters and the snapshot of `WaveTask` do access the record under the
mutex, and no function waits on a semaphore while it holds the mutex.  The
operation sequences are those of the state functions. -/
theorem waveGet_reads_without_mutex :
    accessesGuarded false WaveGetOps = false
      ∧ WaveGet { WaveStruct := { type := 1, amp := 20, freq := 440 },
                  WaveStructMutexKey := true, WaveChgFlag := 1 }
          = some ({ WaveStruct := { type := 1, amp := 20, freq := 440 },
                    WaveStructMutexKey := true, WaveChgFlag := 0 }, 20, 440)
      ∧ accessesGuarded false AmpSetOps = true
      ∧ accessesGuarded false FreqSetOps = true
      ∧ accessesGuarded false TypeSetOps = true
      ∧ accessesGuarded false WaveTaskOps = true
      ∧ noWaitWhileHeld false AmpSetOps = true
      ∧ noWaitWhileHeld false FreqSetOps = true
      ∧ noWaitWhileHeld false TypeSetOps = true
      ∧ noWaitWhileHeld false WaveGetOps = true
      ∧ noWaitWhileHeld false WaveTaskOps = true
      ∧ (∀ (m : WaveShared) (v : Nat),
          execOps v m AmpSetOps = some (AmpSet m v)
            ∧ execOps v m FreqSetOps = some (FreqSet m v)
            ∧ execOps v m TypeSetOps = some (TypeSet m v)
            ∧ execOps v m WaveGetOps = (WaveGet m).map Prod.fst
            ∧ execOps v m WaveTaskOps = some (OSMutexPost (OSMutexPend m))) := by
  refine ⟨by decide, by decide, by decide, by decide, by decide, by decide, by decide,
    by decide, by decide, by decide, by decide, ?_⟩
  intro m v
  refine ⟨rfl, rfl, rfl, ?_, rfl⟩
  by_cases h : m.WaveChgFlag = 0
  · simp [execOps, execOp, WaveGetOps, WaveGet, h]
  · simp [execOps, execOp, WaveGetOps, WaveGet, h]

/-! ## Phase accumulator -/

theorem sineStep_radians (arm_sin_q31 : Int → Int) (freq volume layer : Nat) (l : List Nat) :
    ∀ s : WaveTaskState,
      (l.foldl (sineStep arm_sin_q31 freq volume layer) s).radians
        = l.foldl (fun r _ => foldPhase (s32 (r + phaseInc freq))) s.radians := by
  induction l with
  | nil => intro s; rfl
  | cons a l ih =>
    intro s
    simp only [List.foldl_cons]
    rw [ih]
    rfl

theorem triangleStep_radians (freq volume layer : Nat) (l : List Nat) :
    ∀ s : WaveTaskState,
      (l.foldl (triangleStep freq volume layer) s).radians
        = l.foldl (fun r _ => foldPhase (s32 (r + phaseInc (2 * freq)))) s.radians := by
  induction l with
  | nil => intro s; rfl
  | cons a l ih =>
    intro s
    simp only [List.foldl_cons]
    rw [ih]
    rfl

/-- C17 fails on the code: from the initial phase 0, a sine wave of 6000 Hz
has the phase increment `2^28`; the eighth sample of the first fill cycle
brings the accumulator to `2^31`, which is `-2^31` as a signed 32-bit value,
and the fold `2147268900 - ~radians` leaves `-214747`, a negative phase that
goes to the sine primitive.  The triangle wave of 6000 Hz reaches the same
negative phase at its fourth sample. -/
theorem phase_negative_after_fold (arm_sin_q31 : Int → Int) (WaveOut : Nat → Nat → Nat)
    (Wave_State : TRI_T) (changeState volume layer : Nat) :
    phaseInc 6000 = 268435456
      ∧ ((List.range 8).foldl (sineStep arm_sin_q31 6000 volume layer)
          { WaveOut := WaveOut, radians := 0, Wave_State := Wave_State,
            changeState := changeState }).radians = -214747
      ∧ ((List.range 4).foldl (triangleStep 6000 volume layer)
          { WaveOut := WaveOut, radians := 0, Wave_State := Wave_State,
            changeState := changeState }).radians = -214747
      ∧ foldPhase (-2147483648) = -214747 := by
  refine ⟨by decide, ?_, ?_, by decide⟩
  · rw [sineStep_radians]
    show (List.range 8).foldl (fun r _ => foldPhase (s32 (r + phaseInc 6000))) 0 = -214747
    decide
  · rw [triangleStep_radians]
    show (List.range 4).foldl (fun r _ => foldPhase (s32 (r + phaseInc (2 * 6000)))) 0 = -214747
    decide

/-- C18 fails on the code: for the triangle wave the shift `(2*freq) << 17`
leaves the signed 32-bit range from 8192 Hz on (`2*8192*2^17 = 2^31`), the
increment computed in 32 bits is then negative (`-733003776` at 8192 Hz,
`-571228160` at 10000 Hz) and smaller than the increment `732905472` at
8191 Hz. -/
theorem triangle_increment_overflows :
    (2147483647 : Int) < ((2 * 8192 : Nat) : Int) * 131072
      ∧ phaseInc (2 * 8191) = 732905472
      ∧ phaseInc (2 * 8192) = -733003776
      ∧ phaseInc (2 * 10000) = -571228160
      ∧ ¬ (0 < phaseInc (2 * 10000))
      ∧ ¬ (phaseInc (2 * 8191) ≤ phaseInc (2 * 8192)) := by
  decide

/-! ## Triangle and sine increments -/

theorem phaseInc_exact (v : Nat) (hv : v ≤ 16383) :
    phaseInc v = ((v : Int) * 131072 / 48000) * 16384 := by
  have h0 : (0 : Int) ≤ (v : Int) := Int.ofNat_nonneg v
  have hle : (v : Int) ≤ 16383 := by exact_mod_cast hv
  have e1 : s32 ((v : Int) * 131072) = (v : Int) * 131072 := by
    unfold s32
    omega
  have e2 : Int.tdiv ((v : Int) * 131072) ((FS : Nat) : Int) = (v : Int) * 131072 / 48000 := by
    rw [Int.tdiv_eq_ediv (by omega) (by simp [FS])]
    rfl
  unfold phaseInc
  rw [e1, e2]
  unfold s32
  omega

/-- C19, as stated, fails at 12 Hz: the triangle increment is
`65 << 14 = 1064960`, twice the sine increment is `2 * (32 << 14) = 1048576`. -/
theorem triangle_increment_not_double_at_12 :
    phaseInc (2 * 12) = 1064960 ∧ phaseInc 12 = 524288
      ∧ ¬ (phaseInc (2 * 12) = 2 * phaseInc 12) := by
  decide

/-- C19, amended: for every frequency below 8192 Hz (where `(2*freq) << 17`
stays in the signed 32-bit range) the triangle increment is twice the sine
increment or twice the sine increment plus `2^14`: the division by `FS`
truncates after the doubling. -/
theorem triangle_increment_double_or_next (freq : Nat) (hf : freq ≤ 8191) :
    phaseInc (2 * freq) = 2 * phaseInc freq
      ∨ phaseInc (2 * freq) = 2 * phaseInc freq + 16384 := by
  rw [phaseInc_exact (2 * freq) (by omega), phaseInc_exact freq (by omega)]
  have h0 : (0 : Int) ≤ (freq : Int) := Int.ofNat_nonneg freq
  have hc : ((2 * freq : Nat) : Int) = 2 * (freq : Int) := by push_cast; ring
  rw [hc]
  omega

/-- Witness of the amended C19 at 12 Hz. -/
theorem triangle_increment_double_or_next_witness :
    (12 : Nat) ≤ 8191 ∧
      (phaseInc (2 * 12) = 2 * phaseInc 12 ∨ phaseInc (2 * 12) = 2 * phaseInc 12 + 16384) :=
  ⟨by decide, triangle_increment_double_or_next 12 (by decide)⟩

/-! ## The partition of the note labels -/

theorem noteLabel_intervals (d : Nat) (old : String) :
    (d < 1683 → noteLabel d old = "C") ∧
      (1683 ≤ d ∧ d < 1783 → noteLabel d old = "C#") ∧
      (1783 ≤ d ∧ d < 1890 → noteLabel d old = "D") ∧
      (1890 ≤ d ∧ d < 2002 → noteLabel d old = "D#") ∧
      (2002 ≤ d ∧ d < 2121 → noteLabel d old = "E") ∧
      (2121 ≤ d ∧ d < 2247 → noteLabel d old = "F") ∧
      (2247 ≤ d ∧ d < 2381 → noteLabel d old = "F#") ∧
      (2381 ≤ d ∧ d < 2523 → noteLabel d old = "G") ∧
      (2523 ≤ d ∧ d < 2673 → noteLabel d old = "G#") ∧
      (2673 ≤ d ∧ d < 2832 → noteLabel d old = "A") ∧
      (2832 ≤ d ∧ d < 3000 → noteLabel d old = "A#") ∧
      (3000 ≤ d ∧ d < 3179 → noteLabel d old = "B") := by
  refine ⟨?_, ?_, ?_, ?_, ?_, ?_, ?_, ?_, ?_, ?_, ?_, ?_⟩ <;>
    (intro h
     unfold noteLabel
     repeat rw [if_neg (by omega)]
     rw [if_pos (by omega)])

theorem specLabel_intervals (d : Nat) :
    (d < 1683 →
        specLabel d = some "C" ∧ (notePartition.filter (inInterval d)).length = 1) ∧
      (1683 ≤ d ∧ d < 1783 →
        specLabel d = some "C#" ∧ (notePartition.filter (inInterval d)).length = 1) ∧
      (1783 ≤ d ∧ d < 1890 →
        specLabel d = some "D" ∧ (notePartition.filter (inInterval d)).length = 1) ∧
      (1890 ≤ d ∧ d < 2002 →
        specLabel d = some "D#" ∧ (notePartition.filter (inInterval d)).length = 1) ∧
      (2002 ≤ d ∧ d < 2121 →
        specLabel d = some "E" ∧ (notePartition.filter (inInterval d)).length = 1) ∧
      (2121 ≤ d ∧ d < 2247 →
        specLabel d = some "F" ∧ (notePartition.filter (inInterval d)).length = 1) ∧
      (2247 ≤ d ∧ d < 2381 →
        specLabel d = some "F#" ∧ (notePartition.filter (inInterval d)).length = 1) ∧
      (2381 ≤ d ∧ d < 2523 →
        specLabel d = some "G" ∧ (notePartition.filter (inInterval d)).length = 1) ∧
      (2523 ≤ d ∧ d < 2673 →
        specLabel d = some "G#" ∧ (notePartition.filter (inInterval d)).length = 1) ∧
      (2673 ≤ d ∧ d < 2832 →
        specLabel d = some "A" ∧ (notePartition.filter (inInterval d)).length = 1) ∧
      (2832 ≤ d ∧ d < 3000 →
        specLabel d = some "A#" ∧ (notePartition.filter (inInterval d)).length = 1) ∧
      (3000 ≤ d ∧ d < 3179 →
        specLabel d = some "B" ∧ (notePartition.filter (inInterval d)).length = 1) := by
  have f : ∀ p : Nat × Nat × String,
      inInterval d p = (decide (p.1 ≤ d) && decide (d < p.2.1)) := fun _ => rfl
  refine ⟨?_, ?_, ?_, ?_, ?_, ?_, ?_, ?_, ?_, ?_, ?_, ?_⟩ <;>
    (intro h
     simp (disch := omega) only [specLabel, notePartition, List.filter, f, decide_eq_true,
       decide_eq_false, Bool.and_true, Bool.and_false, Bool.false_and, Bool.true_and,
       List.head?, Option.map, List.length, and_self])

theorem labelRank_intervals (d : Nat) (hd : d ≤ 3178) (old : String) :
    ∃ r, labelRank (noteLabel d old) = r ∧
      ((r = 0 ∧ d < 1683) ∨
      (r = 1 ∧ 1683 ≤ d ∧ d < 1783) ∨
      (r = 2 ∧ 1783 ≤ d ∧ d < 1890) ∨
      (r = 3 ∧ 1890 ≤ d ∧ d < 2002) ∨
      (r = 4 ∧ 2002 ≤ d ∧ d < 2121) ∨
      (r = 5 ∧ 2121 ≤ d ∧ d < 2247) ∨
      (r = 6 ∧ 2247 ≤ d ∧ d < 2381) ∨
      (r = 7 ∧ 2381 ≤ d ∧ d < 2523) ∨
      (r = 8 ∧ 2523 ≤ d ∧ d < 2673) ∨
      (r = 9 ∧ 2673 ≤ d ∧ d < 2832) ∨
      (r = 10 ∧ 2832 ≤ d ∧ d < 3000) ∨
      (r = 11 ∧ 3000 ≤ d ∧ d < 3179)) := by
  obtain ⟨c0, c1, c2, c3, c4, c5, c6, c7, c8, c9, c10, c11⟩ := noteLabel_intervals d old
  have hc : (d < 1683) ∨ (1683 ≤ d ∧ d < 1783) ∨ (1783 ≤ d ∧ d < 1890) ∨ (1890 ≤ d ∧ d < 2002) ∨ (2002 ≤ d ∧ d < 2121) ∨ (2121 ≤ d ∧ d < 2247) ∨ (2247 ≤ d ∧ d < 2381) ∨ (2381 ≤ d ∧ d < 2523) ∨ (2523 ≤ d ∧ d < 2673) ∨ (2673 ≤ d ∧ d < 2832) ∨ (2832 ≤ d ∧ d < 3000) ∨ (3000 ≤ d ∧ d < 3179) := by omega
  rcases hc with h | h | h | h | h | h | h | h | h | h | h | h
  · exact ⟨0, by rw [c0 h]; decide, Or.inl ⟨rfl, h⟩⟩
  · exact ⟨1, by rw [c1 h]; decide, Or.inr (Or.inl ⟨rfl, h⟩)⟩
  · exact ⟨2, by rw [c2 h]; decide, Or.inr (Or.inr (Or.inl ⟨rfl, h⟩))⟩
  · exact ⟨3, by rw [c3 h]; decide, Or.inr (Or.inr (Or.inr (Or.inl ⟨rfl, h⟩)))⟩
  · exact ⟨4, by rw [c4 h]; decide, Or.inr (Or.inr (Or.inr (Or.inr (Or.inl ⟨rfl, h⟩))))⟩
  · exact ⟨5, by rw [c5 h]; decide, Or.inr (Or.inr (Or.inr (Or.inr (Or.inr (Or.inl ⟨rfl, h⟩)))))⟩
  · exact ⟨6, by rw [c6 h]; decide, Or.inr (Or.inr (Or.inr (Or.inr (Or.inr (Or.inr (Or.inl ⟨rfl, h⟩))))))⟩
  · exact ⟨7, by rw [c7 h]; decide, Or.inr (Or.inr (Or.inr (Or.inr (Or.inr (Or.inr (Or.inr (Or.inl ⟨rfl, h⟩)))))))⟩
  · exact ⟨8, by rw [c8 h]; decide, Or.inr (Or.inr (Or.inr (Or.inr (Or.inr (Or.inr (Or.inr (Or.inr (Or.inl ⟨rfl, h⟩))))))))⟩
  · exact ⟨9, by rw [c9 h]; decide, Or.inr (Or.inr (Or.inr (Or.inr (Or.inr (Or.inr (Or.inr (Or.inr (Or.inr (Or.inl ⟨rfl, h⟩)))))))))⟩
  · exact ⟨10, by rw [c10 h]; decide, Or.inr (Or.inr (Or.inr (Or.inr (Or.inr (Or.inr (Or.inr (Or.inr (Or.inr (Or.inr (Or.inl ⟨rfl, h⟩))))))))))⟩
  · exact ⟨11, by rw [c11 h]; decide, Or.inr (Or.inr (Or.inr (Or.inr (Or.inr (Or.inr (Or.inr (Or.inr (Or.inr (Or.inr (Or.inr (⟨rfl, h⟩)))))))))))⟩

/-- C20: for every folded value `d` in `0..3178` and whatever the label was
before, the label that `ADCTask` assigns is the label of the one interval of
the partition C [0,1683), C# [1683,1783), ..., A [2673,2832), A# [2832,3000),
B [3000,3178] that contains `d`.  The label is "A" exactly on [2673,2832) (so
the overlap of the A and A# tests goes to "A"), it is "C#" exactly on
[1683,1783) (the bound 1638 has no effect), and it is monotone in `d` along
the order C, C#, ..., B. -/
theorem label_follows_partition (d : Nat) (hd : d ≤ 3178) (old : String) :
    specLabel d = some (noteLabel d old)
      ∧ (notePartition.filter (inInterval d)).length = 1
      ∧ (noteLabel d old = "A" ↔ 2673 ≤ d ∧ d < 2832)
      ∧ (noteLabel d old = "C#" ↔ 1683 ≤ d ∧ d < 1783)
      ∧ labelRank (noteLabel d old) ≤ 11
      ∧ (∀ d', d' ≤ d → labelRank (noteLabel d' old) ≤ labelRank (noteLabel d old)) := by
  obtain ⟨c0, c1, c2, c3, c4, c5, c6, c7, c8, c9, c10, c11⟩ := noteLabel_intervals d old
  obtain ⟨s0, s1, s2, s3, s4, s5, s6, s7, s8, s9, s10, s11⟩ := specLabel_intervals d
  obtain ⟨r, hr, hdisj⟩ := labelRank_intervals d hd old
  have hc : (d < 1683) ∨ (1683 ≤ d ∧ d < 1783) ∨ (1783 ≤ d ∧ d < 1890) ∨ (1890 ≤ d ∧ d < 2002) ∨ (2002 ≤ d ∧ d < 2121) ∨ (2121 ≤ d ∧ d < 2247) ∨ (2247 ≤ d ∧ d < 2381) ∨ (2381 ≤ d ∧ d < 2523) ∨ (2523 ≤ d ∧ d < 2673) ∨ (2673 ≤ d ∧ d < 2832) ∨ (2832 ≤ d ∧ d < 3000) ∨ (3000 ≤ d ∧ d < 3179) := by omega
  have part :
      specLabel d = some (noteLabel d old)
        ∧ (notePartition.filter (inInterval d)).length = 1 := by
    rcases hc with h | h | h | h | h | h | h | h | h | h | h | h
    · rw [c0 h]; exact s0 h
    · rw [c1 h]; exact s1 h
    · rw [c2 h]; exact s2 h
    · rw [c3 h]; exact s3 h
    · rw [c4 h]; exact s4 h
    · rw [c5 h]; exact s5 h
    · rw [c6 h]; exact s6 h
    · rw [c7 h]; exact s7 h
    · rw [c8 h]; exact s8 h
    · rw [c9 h]; exact s9 h
    · rw [c10 h]; exact s10 h
    · rw [c11 h]; exact s11 h
  refine ⟨part.1, part.2, ⟨?_, c9⟩, ⟨?_, c1⟩, by rw [hr]; omega, ?_⟩
  · intro hx
    have h9 : labelRank (noteLabel d old) = 9 := by rw [hx]; decide
    rw [hr] at h9
    omega
  · intro hx
    have h1 : labelRank (noteLabel d old) = 1 := by rw [hx]; decide
    rw [hr] at h1
    omega
  · intro d' hd'
    obtain ⟨r', hr', hdisj'⟩ := labelRank_intervals d' (by omega) old
    rw [hr, hr']
    omega

/-- Witness of C20 at 2700, inside the overlap of the A and A# tests. -/
theorem label_follows_partition_witness :
    (2700 : Nat) ≤ 3178 ∧ specLabel 2700 = some (noteLabel 2700 "X")
      ∧ noteLabel 2700 "X" = "A" :=
  ⟨by decide, (label_follows_partition 2700 (by decide) "X").1,
    ((label_follows_partition 2700 (by decide) "X").2.2.1).mpr ⟨by decide, by decide⟩⟩

/-! ## Unknown waveform type -/

/-- C26: for every snapshot whose amplitude step is not 0 and whose type is
neither `SINE` nor `TRIANGLE` (for example the type 0 that `WaveStruct` holds
before the first `TypeSet`), the fill cycle of `WaveTask` leaves its whole
state as it was: both layers of `WaveOut`, the phase `radians`, the triangle
state and `changeState`. -/
theorem unknown_type_leaves_state (arm_sin_q31 : Int → Int) (s : WaveTaskState)
    (buffer_layer : Nat) (CurrentStruct : WAVE_T)
    (ha : CurrentStruct.amp ≠ 0) (h1 : CurrentStruct.type ≠ 1) (h2 : CurrentStruct.type ≠ 2)
    (d : DMA_RDY) (m : WaveShared) (hm : m.WaveStruct = CurrentStruct) (hd : d.flag ≠ 0) :
    waveFill arm_sin_q31 s buffer_layer CurrentStruct = s
      ∧ (∀ layer i, (waveFill arm_sin_q31 s buffer_layer CurrentStruct).WaveOut layer i
          = s.WaveOut layer i)
      ∧ (waveFill arm_sin_q31 s buffer_layer CurrentStruct).radians = s.radians
      ∧ (waveFill arm_sin_q31 s buffer_layer CurrentStruct).Wave_State = s.Wave_State
      ∧ (WaveTask arm_sin_q31 d m s).map (fun r => r.2.2) = some s := by
  have hfill : ∀ layer, waveFill arm_sin_q31 s layer CurrentStruct = s := by
    intro layer
    unfold waveFill
    rw [if_neg (by simpa [MIN_STEP] using ha), if_neg (by simpa [SINE] using h1),
      if_neg (by simpa [TRIANGLE] using h2)]
  refine ⟨hfill _, ?_, ?_, ?_, ?_⟩
  · intro layer i; rw [hfill]
  · rw [hfill]
  · rw [hfill]
  · simp only [WaveTask, DMAPend, if_neg hd, OSMutexPend, hm, hfill, Option.map_some']

/-- Witness of C26: the snapshot `{type 0, amp 20, freq 0}` that `WaveInit`
leaves, on layer 0. -/
theorem unknown_type_leaves_state_witness :
    ({ type := 0, amp := 20, freq := 0 } : WAVE_T).amp ≠ 0
      ∧ ({ type := 0, amp := 20, freq := 0 } : WAVE_T).type ≠ 1
      ∧ ({ type := 0, amp := 20, freq := 0 } : WAVE_T).type ≠ 2
      ∧ (waveFill (fun x => x)
          { WaveOut := fun _ _ => 7, radians := 5, Wave_State := TRI_T.NEG_WAVE, changeState := 1 }
          0 { type := 0, amp := 20, freq := 0 }).radians = 5 := by
  refine ⟨by decide, by decide, by decide, ?_⟩
  rw [(unknown_type_leaves_state (fun x => x)
    { WaveOut := fun _ _ => 7, radians := 5, Wave_State := TRI_T.NEG_WAVE, changeState := 1 }
    0 { type := 0, amp := 20, freq := 0 } (by decide) (by decide) (by decide)
    { flag := 1, index := 0 }
    { WaveStruct := { type := 0, amp := 20, freq := 0 }, WaveStructMutexKey := false,
      WaveChgFlag := 0 } rfl (by decide)).1]

/-! ## Doubling the frequency -/

theorem double_div_pow (x m : Nat) : 2 * x / 2 ^ (m + 1) = x / 2 ^ m := by
  rw [Nat.pow_succ, Nat.mul_comm (2 ^ m) 2]
  exact Nat.mul_div_mul_left x (2 ^ m) (by decide)

/-- C25: for every corrected frequency `f ≥ 16` with `200*f < 2^32`, the octave
that `ADCTask` computes for `2*f` is the octave for `f` plus one, the folded
values agree, `(200*f) >> octave(2f) = (100*f) >> octave(f)`, and from the same
previous note both frequencies get the same label. -/
theorem doubling_raises_octave (f : Nat) (h16 : 16 ≤ f) (hf : 200 * f < 4294967296)
    (noteOut : NOTE) :
    ∃ n, octaveSearch f = some n
      ∧ octaveSearch (2 * f) = some (n + 1)
      ∧ (200 * f) >>> (n + 1) = (100 * f) >>> n
      ∧ dummyFreq (2 * f) (n + 1) = dummyFreq f n
      ∧ (classify f noteOut).map NOTE.oct = some n
      ∧ (classify (2 * f) noteOut).map NOTE.oct = some (n + 1)
      ∧ (classify (2 * f) noteOut).map NOTE.note = (classify f noteOut).map NOTE.note := by
  obtain ⟨k, hk, hk21, hle, hmin⟩ := octaveSearch_spec f
  obtain ⟨k2, hk2, hk221, hle2, hmin2⟩ := octaveSearch_spec (2 * f)
  have hu : u32 (f * 100) = f * 100 := Nat.mod_eq_of_lt (by omega)
  have hu2 : u32 (2 * f * 100) = 2 * (f * 100) := by
    unfold u32
    rw [Nat.mod_eq_of_lt (by omega)]
    ring
  rw [hu] at hle hmin
  rw [hu2] at hle2 hmin2
  have hup : k2 ≤ k + 1 := by
    by_contra hgt
    have h := hmin2 (k + 1) (by omega)
    rw [double_div_pow] at h
    omega
  have hlow : k + 1 ≤ k2 := by
    by_contra hgt
    cases k2 with
    | zero =>
      simp only [Nat.pow_zero, Nat.div_one] at hle2
      omega
    | succ j =>
      rw [double_div_pow] at hle2
      have h := hmin j (by omega)
      omega
  have hkk : k2 = k + 1 := by omega
  subst hkk
  have h8 : u8 k = k := Nat.mod_eq_of_lt (by omega)
  have h82 : u8 (k + 1) = k + 1 := Nat.mod_eq_of_lt (by omega)
  have hd : dummyFreq (2 * f) (k + 1) = dummyFreq f k := by
    simp only [dummyFreq, hu, hu2, Nat.one_shiftLeft, double_div_pow]
  refine ⟨k, hk, hk2, ?_, hd, ?_, ?_, ?_⟩
  · rw [Nat.shiftRight_eq_div_pow, Nat.shiftRight_eq_div_pow]
    have e : 200 * f = 2 * (100 * f) := by ring
    rw [e, double_div_pow]
  · simp only [classify, hk, Option.map_some', h8]
  · simp only [classify, hk2, Option.map_some', h82]
  · simp only [classify, hk, hk2, Option.map_some', h8, h82, hd]

/-- Witness of C25 at 440 Hz and 880 Hz. -/
theorem doubling_raises_octave_witness :
    (16 : Nat) ≤ 440 ∧ 200 * 440 < 4294967296
      ∧ ∃ n, octaveSearch 440 = some n ∧ octaveSearch (2 * 440) = some (n + 1) := by
  obtain ⟨n, h1, h2, _⟩ := doubling_raises_octave 440 (by decide) (by decide) ADCInit.noteOut
  exact ⟨by decide, by decide, n, h1, h2⟩

/-! ## Range of the emitted sample -/

/-- C24: for every amplitude step `a` in `1..20` and every signed 32-bit value
`x`, the volume `a*570/20` lies in `28..570`, the product `volume * (x >> 11)`
stays in the signed 32-bit range, the AC component `(volume*(x>>11)) >> 20`
lies in `[-volume, volume-1]`, and the emitted sample is `680 + AC` without
wrapping in the 16-bit cast, within `[680-volume, 680+volume-1]` and so within
`[110, 1249]`. -/
theorem sample_within_range (a : Nat) (x : Int) (ha1 : 1 ≤ a) (ha2 : a ≤ 20)
    (hx1 : -2147483648 ≤ x) (hx2 : x < 2147483648) :
    28 ≤ u16 (a * AC_MAX / MAX_STEP) ∧ u16 (a * AC_MAX / MAX_STEP) ≤ 570
      ∧ s32 ((u16 (a * AC_MAX / MAX_STEP) : Int) * (x / 2048))
          = (u16 (a * AC_MAX / MAX_STEP) : Int) * (x / 2048)
      ∧ -(u16 (a * AC_MAX / MAX_STEP) : Int) ≤ acComponent (u16 (a * AC_MAX / MAX_STEP)) x
      ∧ acComponent (u16 (a * AC_MAX / MAX_STEP)) x ≤ (u16 (a * AC_MAX / MAX_STEP) : Int) - 1
      ∧ (toSample (acComponent (u16 (a * AC_MAX / MAX_STEP)) x) : Int)
          = 680 + acComponent (u16 (a * AC_MAX / MAX_STEP)) x
      ∧ 110 ≤ toSample (acComponent (u16 (a * AC_MAX / MAX_STEP)) x)
      ∧ toSample (acComponent (u16 (a * AC_MAX / MAX_STEP)) x) ≤ 1249 := by
  have hv : 28 ≤ u16 (a * AC_MAX / MAX_STEP) ∧ u16 (a * AC_MAX / MAX_STEP) ≤ 570 := by
    have hq1 : 28 ≤ a * 570 / 20 := by omega
    have hq2 : a * 570 / 20 ≤ 570 := by omega
    have hm : u16 (a * AC_MAX / MAX_STEP) = a * 570 / 20 :=
      Nat.mod_eq_of_lt (by simp only [AC_MAX, MAX_STEP]; omega)
    rw [hm]
    exact ⟨hq1, hq2⟩
  generalize u16 (a * AC_MAX / MAX_STEP) = v at hv ⊢
  obtain ⟨hv1, hv2⟩ := hv
  have hvi1 : (28 : Int) ≤ (v : Int) := by exact_mod_cast hv1
  have hvi2 : (v : Int) ≤ 570 := by exact_mod_cast hv2
  have hy1 : -1048576 ≤ x / 2048 := by omega
  have hy2 : x / 2048 ≤ 1048575 := by omega
  have hp1 : -1048576 * (v : Int) ≤ (v : Int) * (x / 2048) := by nlinarith
  have hp2 : (v : Int) * (x / 2048) ≤ 1048575 * (v : Int) := by nlinarith
  have hs : s32 ((v : Int) * (x / 2048)) = (v : Int) * (x / 2048) := by
    unfold s32
    omega
  have hac1 : -(v : Int) ≤ acComponent v x := by
    unfold acComponent
    rw [hs]
    omega
  have hac2 : acComponent v x ≤ (v : Int) - 1 := by
    unfold acComponent
    rw [hs]
    omega
  have hts : (toSample (acComponent v x) : Int) = 680 + acComponent v x := by
    unfold toSample s32
    simp only [DC_OFFSET]
    push_cast
    omega
  refine ⟨hv1, hv2, hs, hac1, hac2, hts, ?_, ?_⟩
  · have : (110 : Int) ≤ (toSample (acComponent v x) : Int) := by rw [hts]; omega
    exact_mod_cast this
  · have : (toSample (acComponent v x) : Int) ≤ 1249 := by rw [hts]; omega
    exact_mod_cast this

/-- Witness of C24 at the full amplitude step and the most negative value. -/
theorem sample_within_range_witness :
    (1 : Nat) ≤ 20 ∧ (20 : Nat) ≤ 20 ∧ (-2147483648 : Int) ≤ -2147483648
      ∧ (-2147483648 : Int) < 2147483648
      ∧ 110 ≤ toSample (acComponent (u16 (20 * AC_MAX / MAX_STEP)) (-2147483648)) :=
  ⟨by decide, by decide, by decide, by decide,
    (sample_within_range 20 (-2147483648) (by decide) (by decide) (by decide)
      (by decide)).2.2.2.2.2.2.1⟩

/-! ## The triangle state machine -/

theorem freqEstimate_defined (k : Nat) (h1 : 1 ≤ k) (h2 : k ≤ 511) :
    ∃ e, freqEstimate k = some e ∧ e ≤ 22007 := by
  have hd : 20039 ≤ 10240000 / k := (Nat.le_div_iff_mul_le (by omega)).mpr (by omega)
  have he : 441000000 / (10240000 / k) ≤ 441000000 / 20039 :=
    Nat.div_le_div_left hd (by decide)
  refine ⟨441000000 / (10240000 / k), ?_, by omega⟩
  simp only [freqEstimate, u32, SAMPLES, SAMPLE_RATE]
  rw [if_neg (by omega)]
  norm_num
  omega

theorem averageFreq_running (l : List Nat) (hlen : l.length = 20)
    (hb : ∀ x, x ∈ l → x ≤ 22007) :
    ∀ j, j ≤ 20 →
      (List.range j).foldl (fun acc i => u32 (acc + l.getD i 0)) 0 = (l.take j).sum
        ∧ (l.take j).sum ≤ j * 22007 := by
  intro j
  induction j with
  | zero => intro _; simp
  | succ j ih =>
    intro hj
    obtain ⟨h1, h2⟩ := ih (by omega)
    have hjl : j < l.length := by omega
    have hget : l.getD j 0 = l[j] := List.getD_eq_getElem l 0 hjl
    have hle : l[j] ≤ 22007 := hb _ (List.getElem_mem hjl)
    have hsum : (l.take (j + 1)).sum = (l.take j).sum + l[j] := by
      rw [List.take_succ, List.sum_append, List.getElem?_eq_getElem hjl]
      simp
    rw [List.range_succ, List.foldl_append, h1, hsum]
    simp only [List.foldl_cons, List.foldl_nil, hget, u32]
    refine ⟨Nat.mod_eq_of_lt (by omega), by omega⟩

theorem averageFreq_eq_sum (l : List Nat) (hlen : l.length = 20)
    (hb : ∀ x, x ∈ l → x ≤ 22007) :
    averageFreq l = l.sum / 20 := by
  unfold averageFreq
  have h := (averageFreq_running l hlen hb 20 (Nat.le_refl _)).1
  have ht : l.take 20 = l := by rw [← hlen]; exact List.take_length l
  rw [ht] at h
  simp only [FREQ_AVG_SIZE]
  rw [h]

theorem runADCFrom_snoc (ks : List Nat) (k : Nat) :
    ∀ s : ADCState,
      runADCFrom s (ks ++ [k]) = (runADCFrom s ks).bind (fun t => ADCTask t k) := by
  induction ks with
  | nil =>
    intro s
    simp only [List.nil_append, runADCFrom, Option.some_bind]
    cases ADCTask s k <;> rfl
  | cons a ks ih =>
    intro s
    simp only [List.cons_append, runADCFrom]
    cases ADCTask s a with
    | none => rfl
    | some u => exact ih u

theorem recompute_defined (adcFreq : List Nat) (noteOut : NOTE) :
    ∃ r, recompute adcFreq noteOut = some r
      ∧ r.freq = correctFreq (averageFreq adcFreq) := by
  have hf := classify_freq (correctFreq (averageFreq adcFreq)) noteOut
  unfold recompute
  cases hcl : classify (correctFreq (averageFreq adcFreq)) noteOut with
  | none => rw [hcl] at hf; simp at hf
  | some r =>
    rw [hcl] at hf
    simp only [Option.map_some', Option.some.injEq] at hf
    exact ⟨r, rfl, hf⟩

theorem ADCTask_step (s : ADCState) (k e : Nat) (he : freqEstimate k = some e)
    (hc : s.conv_cnt < 20) :
    ∃ t, ADCTask s k = some t ∧ t.adcFreq = s.adcFreq.set s.conv_cnt e
      ∧ (s.conv_cnt + 1 ≠ 20 → t.conv_cnt = s.conv_cnt + 1 ∧ t.noteOut = s.noteOut)
      ∧ (s.conv_cnt + 1 = 20 → t.conv_cnt = 0
          ∧ t.noteOut.freq = correctFreq (averageFreq (s.adcFreq.set s.conv_cnt e))) := by
  have h8 : u8 (s.conv_cnt + 1) = s.conv_cnt + 1 := Nat.mod_eq_of_lt (by omega)
  obtain ⟨r, hr, hrf⟩ := recompute_defined (s.adcFreq.set s.conv_cnt e) s.noteOut
  cases hA : ADCTask s k with
  | none =>
    exfalso
    unfold ADCTask at hA
    rw [he] at hA
    dsimp only at hA
    rw [h8, hr] at hA
    by_cases h20 : s.conv_cnt + 1 = FREQ_AVG_SIZE
    · rw [if_pos h20] at hA; simp at hA
    · rw [if_neg h20] at hA; simp at hA
  | some t =>
    refine ⟨t, rfl, ?_⟩
    unfold ADCTask at hA
    rw [he] at hA
    dsimp only at hA
    rw [h8, hr] at hA
    by_cases h20 : s.conv_cnt + 1 = FREQ_AVG_SIZE
    · rw [if_pos h20] at hA
      simp only [Option.map_some', Option.some.injEq] at hA
      subst hA
      exact ⟨rfl, fun h => absurd h20 h, fun _ => ⟨rfl, hrf⟩⟩
    · rw [if_neg h20] at hA
      simp only [Option.some.injEq] at hA
      subst hA
      exact ⟨rfl, fun _ => ⟨rfl, rfl⟩, fun h => absurd h h20⟩

theorem getD_set (l : List Nat) (c e j : Nat) (hc : c < l.length) :
    (l.set c e).getD j 0 = if j = c then e else l.getD j 0 := by
  simp only [List.getD_eq_getElem?_getD, List.getElem?_set]
  by_cases h : c = j
  · subst h
    simp [hc]
  · have h2 : ¬ j = c := fun h3 => h h3.symm
    simp [h, h2]

theorem runADC_schedule (ks : List Nat) (hks : ∀ x, x ∈ ks → 1 ≤ x ∧ x ≤ 511) :
    ∃ s, runADC ks = some s ∧ s.adcFreq.length = 20 ∧ s.conv_cnt = ks.length % 20
      ∧ (∀ x, x ∈ s.adcFreq → x ≤ 22007)
      ∧ (∀ j, j < ks.length % 20 →
          s.adcFreq.getD j 0
            = (freqEstimate (ks.getD (ks.length - ks.length % 20 + j) 0)).getD 0) := by
  induction ks using List.reverseRecOn with
  | nil =>
    refine ⟨ADCInit, rfl, rfl, rfl, ?_, ?_⟩
    · intro x hx
      have : x = 0 := List.eq_of_mem_replicate hx
      omega
    · intro j hj
      simp at hj
  | append_singleton ks k ih =>
    obtain ⟨s, hs, hlen, hcnt, hb, hpt⟩ := ih (fun x hx => hks x (List.mem_append_left _ hx))
    obtain ⟨hk1, hk2⟩ := hks k (List.mem_append_right _ (List.mem_singleton_self k))
    obtain ⟨e, he, he2⟩ := freqEstimate_defined k hk1 hk2
    have hc : s.conv_cnt < 20 := by omega
    obtain ⟨t, ht, hbuf, hno, hyes⟩ := ADCTask_step s k e he hc
    have hrun : runADC (ks ++ [k]) = some t := by
      unfold runADC at hs ⊢
      rw [runADCFrom_snoc, hs]
      exact ht
    have hl : (ks ++ [k]).length = ks.length + 1 := by simp
    refine ⟨t, hrun, ?_, ?_, ?_, ?_⟩
    · rw [hbuf, List.length_set]; exact hlen
    · rw [hl]
      by_cases h20 : s.conv_cnt + 1 = 20
      · rw [(hyes h20).1]; omega
      · rw [(hno h20).1]; omega
    · intro x hx
      rw [hbuf] at hx
      rcases List.mem_or_eq_of_mem_set hx with h | h
      · exact hb x h
      · omega
    · intro j hj
      rw [hl] at hj ⊢
      have hcl : s.conv_cnt < s.adcFreq.length := by omega
      rw [hbuf, getD_set _ _ _ _ hcl]
      by_cases hjc : j = s.conv_cnt
      · rw [if_pos hjc]
        have hidx : ks.length + 1 - (ks.length + 1) % 20 + j = ks.length := by omega
        rw [hidx, List.getD_append_right _ _ _ _ (Nat.le_refl _)]
        simp [he]
      · rw [if_neg hjc]
        have hj2 : j < ks.length % 20 := by omega
        rw [hpt j hj2]
        have hidx : ks.length + 1 - (ks.length + 1) % 20 + j
            = ks.length - ks.length % 20 + j := by omega
        rw [hidx, List.getD_append _ _ _ _ (by omega)]

/-- C21: starting from `ADCInit`, with peak indices in `1..511`, every analysis
cycle writes the estimate into slot `conv_cnt`, which equals the number of
earlier cycles modulo 20 (so it is in `0..19` and returns to 0 after slot 19).
On a cycle whose number is not a multiple of 20 the note is left as it was.  On
cycle 20, 40, 60, ... the buffer holds exactly the estimates of the last 20
cycles, their sum does not wrap, and the frequency stored is the correction of
the truncated mean `sum / 20`. -/
theorem averaging_every_twentieth (ks : List Nat) (k : Nat)
    (hks : ∀ x, x ∈ ks → 1 ≤ x ∧ x ≤ 511) (hk1 : 1 ≤ k) (hk2 : k ≤ 511) :
    ∃ s t, runADC ks = some s ∧ ADCTask s k = some t
      ∧ s.conv_cnt = ks.length % 20 ∧ s.conv_cnt < 20
      ∧ t.conv_cnt = (ks.length + 1) % 20
      ∧ t.adcFreq = s.adcFreq.set s.conv_cnt ((freqEstimate k).getD 0)
      ∧ ((ks.length + 1) % 20 ≠ 0 → t.noteOut = s.noteOut)
      ∧ ((ks.length + 1) % 20 = 0 →
          t.adcFreq.length = 20
            ∧ (∀ j, j < 20 →
                t.adcFreq.getD j 0
                  = (freqEstimate ((ks ++ [k]).getD (ks.length - 19 + j) 0)).getD 0)
            ∧ averageFreq t.adcFreq = t.adcFreq.sum / 20
            ∧ t.noteOut.freq = correctFreq (t.adcFreq.sum / 20)) := by
  obtain ⟨s, hs, hlen, hcnt, hb, hpt⟩ := runADC_schedule ks hks
  obtain ⟨e, he, he2⟩ := freqEstimate_defined k hk1 hk2
  have hc : s.conv_cnt < 20 := by omega
  obtain ⟨t, ht, hbuf, hno, hyes⟩ := ADCTask_step s k e he hc
  have hest : (freqEstimate k).getD 0 = e := by rw [he]; rfl
  have htlen : t.adcFreq.length = 20 := by rw [hbuf, List.length_set]; exact hlen
  have htb : ∀ x, x ∈ t.adcFreq → x ≤ 22007 := by
    intro x hx
    rw [hbuf] at hx
    rcases List.mem_or_eq_of_mem_set hx with h | h
    · exact hb x h
    · omega
  refine ⟨s, t, hs, ht, hcnt, hc, ?_, by rw [hest]; exact hbuf, ?_, ?_⟩
  · by_cases h20 : s.conv_cnt + 1 = 20
    · rw [(hyes h20).1]; omega
    · rw [(hno h20).1]; omega
  · intro hne
    exact (hno (by omega)).2
  · intro hz
    have h19 : s.conv_cnt = 19 := by omega
    have hmean := averageFreq_eq_sum t.adcFreq htlen htb
    refine ⟨htlen, ?_, hmean, ?_⟩
    · intro j hj
      rw [hbuf, getD_set _ _ _ _ (by omega), h19]
      by_cases hj19 : j = 19
      · rw [if_pos hj19, hj19]
        have hidx : ks.length - 19 + 19 = ks.length := by omega
        rw [hidx, List.getD_append_right _ _ _ _ (Nat.le_refl _)]
        simp [he]
      · rw [if_neg hj19]
        have hj2 : j < ks.length % 20 := by omega
        rw [hpt j hj2]
        have hidx : ks.length - ks.length % 20 + j = ks.length - 19 + j := by omega
        rw [hidx, List.getD_append _ _ _ _ (by omega)]
    · rw [(hyes (by omega)).2, ← hbuf, hmean]

/-- Witness of C21: the twentieth cycle after `ADCInit`, all peak indices 379. -/
theorem averaging_every_twentieth_witness :
    (1 : Nat) ≤ 379 ∧ (379 : Nat) ≤ 511
      ∧ ∃ s t, runADC (List.replicate 19 379) = some s ∧ ADCTask s 379 = some t
          ∧ t.conv_cnt = 0 := by
  obtain ⟨s, t, h1, h2, _, _, h5, _⟩ :=
    averaging_every_twentieth (List.replicate 19 379) 379
      (fun x hx => by rw [List.eq_of_mem_replicate hx]; decide) (by decide) (by decide)
  refine ⟨by decide, by decide, s, t, h1, h2, ?_⟩
  rw [h5]
  simp

/-! ## Peak index and division by zero -/

theorem maxLoop_keep (rest : List Nat) :
    ∀ i best bestIdx, (∀ y, y ∈ rest → y ≤ best) → maxLoop rest i best bestIdx = bestIdx := by
  induction rest with
  | nil => intro i best bestIdx _; rfl
  | cons x rest ih =>
    intro i best bestIdx h
    have hx : ¬ best < x := Nat.not_lt.mpr (h x (List.mem_cons_self x rest))
    simp only [maxLoop, if_neg hx]
    exact ih (i + 1) best bestIdx (fun y hy => h y (List.mem_cons_of_mem x hy))

theorem maxLoop_spec (rest : List Nat) :
    ∀ i best bestIdx,
      (maxLoop rest i best bestIdx = bestIdx ∧ ∀ y, y ∈ rest → y ≤ best)
        ∨ (i ≤ maxLoop rest i best bestIdx
            ∧ maxLoop rest i best bestIdx < i + rest.length
            ∧ best < rest.getD (maxLoop rest i best bestIdx - i) 0) := by
  induction rest with
  | nil =>
    intro i best bestIdx
    exact Or.inl ⟨rfl, fun y hy => absurd hy (List.not_mem_nil y)⟩
  | cons x rest ih =>
    intro i best bestIdx
    by_cases hx : best < x
    · simp only [maxLoop, if_pos hx, List.length_cons]
      rcases ih (i + 1) x i with ⟨hr, _⟩ | ⟨h1, h2, h3⟩
      · right
        rw [hr]
        refine ⟨Nat.le_refl _, by omega, ?_⟩
        simp only [Nat.sub_self, List.getD_cons_zero]
        exact hx
      · right
        refine ⟨by omega, by omega, ?_⟩
        have e : maxLoop rest (i + 1) x i - i = (maxLoop rest (i + 1) x i - (i + 1)) + 1 := by
          omega
        rw [e, List.getD_cons_succ]
        omega
    · simp only [maxLoop, if_neg hx, List.length_cons]
      rcases ih (i + 1) best bestIdx with ⟨hr, hall⟩ | ⟨h1, h2, h3⟩
      · left
        refine ⟨hr, ?_⟩
        intro y hy
        rcases List.mem_cons.mp hy with h | h
        · omega
        · exact hall y h
      · right
        refine ⟨by omega, by omega, ?_⟩
        have e : maxLoop rest (i + 1) best bestIdx - i
            = (maxLoop rest (i + 1) best bestIdx - (i + 1)) + 1 := by omega
        rw [e, List.getD_cons_succ]
        exact h3

theorem maskSpectrum_getD (Output : List Nat) (j : Nat) :
    (maskSpectrum Output).getD j 0
      = if j < Output.length ∧ ¬ (j = 0 ∨ (512 ≤ j ∧ j < 1024)) then Output.getD j 0 else 0 := by
  simp only [maskSpectrum, SAMPLES, List.getD_eq_getElem?_getD, List.getElem?_map,
    List.getElem?_range]
  by_cases hj : j < Output.length
  · simp only [List.getElem?_range hj, Option.map_some', Option.getD_some, hj, true_and]
    by_cases hm : j = 0 ∨ (2048 / 2 / 2 ≤ j ∧ j < 2048 / 2)
    · rw [if_pos hm, if_neg (by omega)]
    · rw [if_neg hm, if_pos (by omega)]
  · have hr : (List.range Output.length)[j]? = none := by
      rw [List.getElem?_eq_none_iff]; simp; omega
    simp [hr, hj]

theorem maskSpectrum_length (Output : List Nat) :
    (maskSpectrum Output).length = Output.length := by
  simp [maskSpectrum]

theorem peakIndex_silent (Output : List Nat) (hlen : Output.length = 1024)
    (hz : ∀ j, 1 ≤ j → j ≤ 511 → Output.getD j 0 = 0) :
    peakIndex Output = 0 := by
  have hall : ∀ j, (maskSpectrum Output).getD j 0 = 0 := by
    intro j
    rw [maskSpectrum_getD]
    by_cases hc : j < Output.length ∧ ¬ (j = 0 ∨ (512 ≤ j ∧ j < 1024))
    · rw [if_pos hc]; exact hz j (by omega) (by omega)
    · rw [if_neg hc]
  unfold peakIndex
  generalize maskSpectrum Output = M at hall
  cases M with
  | nil => rfl
  | cons x rest =>
    have hx : x = 0 := hall 0
    simp only [arm_max_index]
    apply maxLoop_keep
    intro y hy
    obtain ⟨n, hn, hyn⟩ := List.getElem_of_mem hy
    have h := hall (n + 1)
    rw [List.getD_cons_succ, List.getD_eq_getElem _ _ hn, hyn] at h
    omega

theorem peakIndex_in_range (Output : List Nat) (hlen : Output.length = 1024)
    (j : Nat) (hj1 : 1 ≤ j) (hj2 : j ≤ 511) (hpos : 0 < Output.getD j 0) :
    1 ≤ peakIndex Output ∧ peakIndex Output ≤ 511 := by
  have hget := maskSpectrum_getD Output
  have hml := maskSpectrum_length Output
  unfold peakIndex
  generalize maskSpectrum Output = M at hget hml
  cases M with
  | nil => simp at hml; omega
  | cons x rest =>
    have hrl : rest.length = 1023 := by simp at hml; omega
    have hx : x = 0 := by
      have h := hget 0
      simp at h
      exact h
    have hjv : rest.getD (j - 1) 0 = Output.getD j 0 := by
      have h := hget j
      rw [if_pos ⟨by omega, by omega⟩] at h
      rw [← h]
      have e : j = (j - 1) + 1 := by omega
      rw [e, List.getD_cons_succ]
      simp
    simp only [arm_max_index]
    rcases maxLoop_spec rest 1 x 0 with ⟨_, hall⟩ | ⟨h1, h2, h3⟩
    · exfalso
      have hmem : rest.getD (j - 1) 0 ∈ rest := by
        rw [List.getD_eq_getElem _ _ (by omega)]
        exact List.getElem_mem _
      have := hall _ hmem
      omega
    · refine ⟨h1, ?_⟩
      have h := hget (maxLoop rest 1 x 0)
      have e : maxLoop rest 1 x 0 = (maxLoop rest 1 x 0 - 1) + 1 := by omega
      rw [e, List.getD_cons_succ, ← e] at h
      by_contra hgt
      rw [if_neg (by omega)] at h
      omega

/-- C23 fails on the code: when the bins `1..511` of the magnitude spectrum
are all zero (an input of constant samples, for instance all zero), every bin
of the masked spectrum is zero, the peak search delivers the index 0, and
`FFT_SIZE*10000/maxIndex` divides by zero; `ADCTask` has no guard for it.
When some bin in `1..511` is positive, the peak index is in `1..511` and both
divisors are non-zero. -/
theorem silent_spectrum_divides_by_zero :
    peakIndex (List.replicate 1024 0) = 0
      ∧ freqEstimate (peakIndex (List.replicate 1024 0)) = none
      ∧ ADCTask ADCInit (peakIndex (List.replicate 1024 0)) = none
      ∧ (∀ Output : List Nat, Output.length = 1024 →
          (∀ j, 1 ≤ j → j ≤ 511 → Output.getD j 0 = 0) → peakIndex Output = 0)
      ∧ (∀ Output : List Nat, Output.length = 1024 →
          ∀ j, 1 ≤ j → j ≤ 511 → 0 < Output.getD j 0 →
            1 ≤ peakIndex Output ∧ peakIndex Output ≤ 511
              ∧ ∃ e, freqEstimate (peakIndex Output) = some e) := by
  have h0 : peakIndex (List.replicate 1024 0) = 0 := by
    apply peakIndex_silent _ (List.length_replicate 1024 0)
    intro j _ _
    rw [List.getD_eq_getElem?_getD]
    exact List.getElem?_getD_replicate_default_eq _ _ _
  refine ⟨h0, ?_, ?_, peakIndex_silent, ?_⟩
  · rw [h0]; rfl
  · rw [h0]; rfl
  · intro Output hlen j hj1 hj2 hpos
    obtain ⟨h1, h2⟩ := peakIndex_in_range Output hlen j hj1 hj2 hpos
    obtain ⟨e, he, _⟩ := freqEstimate_defined (peakIndex Output) h1 h2
    exact ⟨h1, h2, e, he⟩

/-! ## Peak bin of a tone -/

end Theremin
